import Mathlib

/-!
# Formal model of the trade aggregation module

This file embeds the trade aggregation code of the dashboard repository
(file defining `aggregateTrades`, `getPeriodLengthInDays`,
`groupTradesByPeriod`, `getPeriodKey`, `calculateAggregatedData` and
`formatPeriodForDisplay`) into Lean and proves properties of it.

Modelling decisions:

* JavaScript numbers used as trade sizes and prices are modelled as exact
  rationals; the aggregation code only adds, multiplies and divides them.
* A JavaScript `Date` is modelled by its calendar decomposition
  (`getFullYear`, `getMonth`, `getDate`): a year, a zero-based month below
  12 and a day of month between 1 and 31.  Comparison of `getTime()`
  values is modelled by the (order preserving) encoding `dateVal`, and
  `new Date(year, month, 1).getDay()` is modelled by `firstMonthWeekday`,
  computed from a standard civil calendar day count and including the
  ECMAScript remap of constructor year arguments 0 to 99 to the years
  1900 to 1999.
* A JavaScript plain object used as a string keyed map is modelled by an
  association list in insertion order (new keys are appended at the end,
  as in JavaScript property order), and the symbol count record of a
  bucket by the multiset of symbols of the trades of the bucket (the
  record maps each symbol to its multiplicity, and object key order does
  not take part in deep equality).
* Number to string conversion in template literals is modelled by
  `natToString` and `intToString` (decimal digits, minus sign for
  negative values), and `String.prototype.padStart` by `padStart`.
* The granularity parameter is a plain string, as at the JavaScript
  runtime: the four recognised values are compared explicitly and every
  other string takes the default branches of the code.
* The sorts (`Array.prototype.sort` on trades by timestamp and on buckets
  by period key under `localeCompare`) are modelled by `insertionSort`
  with the corresponding total preorder; `localeCompare` on the generated
  keys (ASCII digits, dash, and uppercase letters) is modelled by
  lexicographic comparison of code points, `charListLtB`.
-/

/-! ## String primitives -/

/-- The decimal digit character for `n` (meaningful for `n < 10`). -/
def digitChar (n : Nat) : Char := Char.ofNat (48 + n)

/-- Fueled big-endian decimal digit list of a natural number. -/
def natDigitsAux : Nat → Nat → List Char
  | 0, _ => []
  | fuel + 1, n =>
    if n < 10 then [digitChar n]
    else natDigitsAux fuel (n / 10) ++ [digitChar (n % 10)]

/-- Big-endian decimal digit list of a natural number. -/
def natDigits (n : Nat) : List Char := natDigitsAux (n + 1) n

/-- Decimal string of a natural number, as produced by a JavaScript
template literal. -/
def natToString (n : Nat) : String := ⟨natDigits n⟩

/-- Decimal string of an integer, as produced by a JavaScript template
literal. -/
def intToString (i : Int) : String :=
  if i < 0 then "-" ++ natToString i.natAbs else natToString i.toNat

/-- Value of a list of decimal digit characters (used to invert
`natDigits`). -/
def parseNatChars (l : List Char) : Nat :=
  l.foldl (fun acc c => 10 * acc + (c.toNat - 48)) 0

/-- Model of `String.prototype.padStart(n, c)`. -/
def padStart (s : String) (n : Nat) (c : Char) : String :=
  ⟨List.replicate (n - s.data.length) c⟩ ++ s

/-- `toString().padStart(2, '0')` on a natural number. -/
def pad2 (n : Nat) : String := padStart (natToString n) 2 '0'

/-- Lexicographic strict comparison of character lists by code point;
model of a negative `localeCompare` result on the generated period keys. -/
def charListLtB : List Char → List Char → Bool
  | [], [] => false
  | [], _ :: _ => true
  | _ :: _, [] => false
  | a :: as, b :: bs =>
    if a.toNat < b.toNat then true
    else if b.toNat < a.toNat then false
    else charListLtB as bs

/-- Model of `String.prototype.split(sep)` for a one character
separator. -/
def splitOnCharAux : List Char → Char → List Char → List (List Char)
  | [], _, acc => [acc.reverse]
  | c :: rest, sep, acc =>
    if c = sep then acc.reverse :: splitOnCharAux rest sep []
    else splitOnCharAux rest sep (c :: acc)

/-- Split a string at every occurrence of the character `sep`. -/
def splitOnChar (s : String) (sep : Char) : List String :=
  (splitOnCharAux s.data sep []).map fun l => ⟨l⟩

/-- Model of `parseInt` on the strings fed to it here (a run of leading
decimal digits). -/
def jsParseInt (s : String) : Nat :=
  parseNatChars (s.data.takeWhile fun c => 48 ≤ c.toNat && c.toNat ≤ 57)

/-! ## Dates

The aggregator reads a trade timestamp only through `new Date(...)` with
`getTime` (for sorting), `getFullYear`, `getMonth`, `getDate`, and
`toISOString`, plus `new Date(year, month, 1).getDay()`. -/

/-- Calendar view of a JavaScript `Date`: `year` is `getFullYear()`,
`month0` is `getMonth()` (zero based, below 12), `day` is `getDate()`
(1 to 31). -/
structure JsDate where
  year : Int
  month0 : Nat
  day : Nat
  month0_lt : month0 < 12
  one_le_day : 1 ≤ day
  day_le : day ≤ 31

instance : DecidableEq JsDate := fun a b =>
  decidable_of_iff (a.year = b.year ∧ a.month0 = b.month0 ∧ a.day = b.day)
    (by
      constructor
      · rintro ⟨h1, h2, h3⟩
        cases a; cases b
        simp only at h1 h2 h3
        subst h1; subst h2; subst h3
        rfl
      · intro h; subst h; exact ⟨rfl, rfl, rfl⟩)

/-- Order preserving encoding of a calendar date; comparison of `dateVal`
values models comparison of `getTime()` values. -/
def dateVal (d : JsDate) : Int := (d.year * 12 + d.month0) * 32 + d.day

/-- Days since 1970-01-01 of a civil date (proleptic Gregorian calendar,
standard civil from days algorithm); models the day count inside a
JavaScript `Date`. -/
def daysFromCivil (y : Int) (m0 : Nat) (d : Nat) : Int :=
  let yShift : Int := if m0 + 1 ≤ 2 then y - 1 else y
  let era : Int := yShift.ediv 400
  let yoe : Int := yShift - era * 400
  let mp : Int := if 2 < m0 + 1 then (m0 : Int) + 1 - 3 else (m0 : Int) + 1 + 9
  let doy : Int := (153 * mp + 2).ediv 5 + d - 1
  let doe : Int := yoe * 365 + yoe.ediv 4 - yoe.ediv 100 + doy
  era * 146097 + doe - 719468

/-- The true weekday (0 = Sunday) of the first day of the given civil
month, in the proleptic Gregorian calendar. -/
def civilFirstWeekday (y : Int) (m0 : Nat) : Nat :=
  ((daysFromCivil y m0 1 + 4).emod 7).toNat

/-- Model of `new Date(year, month, 1).getDay()`.  The ECMAScript `Date`
constructor remaps a year argument between 0 and 99 to 1900 plus that
year before building the date, so for those years the weekday is taken
from the remapped year, not from the year itself. -/
def firstMonthWeekday (y : Int) (m0 : Nat) : Nat :=
  civilFirstWeekday (if 0 ≤ y ∧ y ≤ 99 then y + 1900 else y) m0

/-- Model of `Math.ceil(a / b)` for the nonnegative integers divided
here. -/
def jsCeilDiv (a b : Nat) : Nat := (a + b - 1) / b

/-- The date part of `toISOString()`: four digit zero padded year for
years 0 to 9999, expanded sign and six digits otherwise, then zero padded
month and day. -/
def isoYearString (y : Int) : String :=
  if 0 ≤ y ∧ y ≤ 9999 then padStart (natToString y.toNat) 4 '0'
  else if 9999 < y then "+" ++ padStart (natToString y.toNat) 6 '0'
  else "-" ++ padStart (natToString y.natAbs) 6 '0'

/-- Model of `date.toISOString().split('T')[0]`. -/
def isoDateString (d : JsDate) : String :=
  isoYearString d.year ++ "-" ++ pad2 (d.month0 + 1) ++ "-" ++ pad2 d.day

/-! ## Data model of the aggregator -/

/-- A stock trade record (interface `StockTradeData`): `timeStamp` is the
parsed timestamp (the code does `new Date(trade.timeStamp)`). -/
structure StockTradeData where
  id : String
  timeStamp : JsDate
  tradeSize : ℚ
  price : ℚ
  symbol : String
deriving DecidableEq

/-- One aggregated bucket (interface `AggregatedTradeData`); `symbols` is
the symbol count record, modelled as the multiset of symbols (each symbol
key maps to its multiplicity). -/
structure AggregatedTradeData where
  period : String
  totalTradeSize : ℚ
  averagePrice : ℚ
  tradeCount : Nat
  symbols : Multiset String
deriving DecidableEq

/-! ## The aggregation code -/

/-- `getPeriodLengthInDays` from the source: 1, 7, 30, 91 days, default
1. -/
def getPeriodLengthInDays (aggregationType : String) : Nat :=
  if aggregationType = "Daily" then 1
  else if aggregationType = "Weekly" then 7
  else if aggregationType = "Monthly" then 30
  else if aggregationType = "Quarterly" then 91
  else 1

/-- `getPeriodKey` from the source. -/
def getPeriodKey (date : JsDate) (aggregationType : String) : String :=
  let year := date.year
  if aggregationType = "Daily" then
    intToString year ++ "-" ++ pad2 (date.month0 + 1) ++ "-" ++ pad2 date.day
  else if aggregationType = "Weekly" then
    let weekNumber := jsCeilDiv (date.day + firstMonthWeekday year date.month0) 7
    intToString year ++ "-W" ++ natToString weekNumber ++ "-" ++
      natToString (date.month0 + 1)
  else if aggregationType = "Monthly" then
    intToString year ++ "-" ++ pad2 (date.month0 + 1)
  else if aggregationType = "Quarterly" then
    let quarter := date.month0 / 3 + 1
    intToString year ++ "-Q" ++ natToString quarter
  else
    isoDateString date

/-- Append a trade to the entry of `key` of the association list, or
append a new entry at the end; models `tradesByPeriod[periodKey].push`. -/
def insertTrade (m : List (String × List StockTradeData)) (key : String)
    (t : StockTradeData) : List (String × List StockTradeData) :=
  match m with
  | [] => [(key, [t])]
  | (k, l) :: rest =>
    if k = key then (k, l ++ [t]) :: rest else (k, l) :: insertTrade rest key t

/-- `groupTradesByPeriod` from the source (the period length argument is
taken but never read, as in the source). -/
def groupTradesByPeriod (sortedTrades : List StockTradeData)
    (periodLength : Nat) (aggregationType : String) :
    List (String × List StockTradeData) :=
  let _ := periodLength
  sortedTrades.foldl
    (fun m t => insertTrade m (getPeriodKey t.timeStamp aggregationType) t) []

/-- Lookup of the entry of a key in the association list of period
groups. -/
def findGroup (m : List (String × List StockTradeData)) (key : String) :
    Option (List StockTradeData) :=
  match m with
  | [] => none
  | (k, l) :: rest => if k = key then some l else findGroup rest key

/-- The grouping fold step used by `groupTradesByPeriod`. -/
def groupStep (g : String) (m : List (String × List StockTradeData))
    (t : StockTradeData) : List (String × List StockTradeData) :=
  insertTrade m (getPeriodKey t.timeStamp g) t

/-- The bucket built from one period entry inside
`calculateAggregatedData`. -/
def mkBucket (period : String) (trades : List StockTradeData) :
    AggregatedTradeData :=
  let totalTradeSize := trades.foldl (fun sum t => sum + t.tradeSize) 0
  let weightedPriceSum := trades.foldl (fun sum t => sum + t.price * t.tradeSize) 0
  { period := period
    totalTradeSize := totalTradeSize
    averagePrice := if 0 < totalTradeSize then weightedPriceSum / totalTradeSize else 0
    tradeCount := trades.length
    symbols := trades.foldl (fun m t => t.symbol ::ₘ m) 0 }

/-- Ascending order on buckets by period key, as used by the final
`.sort((a, b) => a.period.localeCompare(b.period))`. -/
def periodLe (a b : AggregatedTradeData) : Prop :=
  charListLtB b.period.data a.period.data = false

instance : DecidableRel periodLe := fun a b =>
  inferInstanceAs (Decidable (_ = false))

/-- Ascending order on trades by timestamp, as used by the initial
`.sort((a, b) => new Date(a.timeStamp).getTime() - new Date(b.timeStamp).getTime())`. -/
def tradeLe (a b : StockTradeData) : Prop :=
  dateVal a.timeStamp ≤ dateVal b.timeStamp

instance : DecidableRel tradeLe := fun a b =>
  inferInstanceAs (Decidable (_ ≤ _))

/-- `calculateAggregatedData` from the source. -/
def calculateAggregatedData
    (tradesByPeriod : List (String × List StockTradeData)) :
    List AggregatedTradeData :=
  List.insertionSort periodLe (tradesByPeriod.map fun e => mkBucket e.1 e.2)

/-- `aggregateTrades` from the source. -/
def aggregateTrades (trades : List StockTradeData)
    (aggregationType : String) : List AggregatedTradeData :=
  if trades.isEmpty then []
  else
    let sortedTrades := List.insertionSort tradeLe trades
    let periodLength := getPeriodLengthInDays aggregationType * 86400000
    let tradesByPeriod := groupTradesByPeriod sortedTrades periodLength aggregationType
    calculateAggregatedData tradesByPeriod

/-- Month name table of `formatPeriodForDisplay`. -/
def monthNames : List String :=
  ["Jan", "Feb", "Mar", "Apr", "May", "Jun", "Jul", "Aug", "Sep", "Oct",
   "Nov", "Dec"]

/-- `formatPeriodForDisplay` from the source (an out of range index into
the month name array yields the string form of `undefined`). -/
def formatPeriodForDisplay (periodKey : String)
    (aggregationType : String) : String :=
  if aggregationType = "Daily" then periodKey
  else if aggregationType = "Weekly" then
    let parts := splitOnChar periodKey '-'
    let year := parts.getD 0 "undefined"
    let weekPart := parts.getD 1 "undefined"
    let month := parts.getD 2 "undefined"
    year ++ " Week " ++ ⟨weekPart.data.drop 1⟩ ++ " (Month " ++ month ++ ")"
  else if aggregationType = "Monthly" then
    let parts := splitOnChar periodKey '-'
    let yearM := parts.getD 0 "undefined"
    let monthM := parts.getD 1 "undefined"
    monthNames.getD (jsParseInt monthM - 1) "undefined" ++ " " ++ yearM
  else if aggregationType = "Quarterly" then
    let parts := splitOnChar periodKey '-'
    let yearQ := parts.getD 0 "undefined"
    let quarterQ := parts.getD 1 "undefined"
    yearQ ++ " " ++ quarterQ
  else periodKey


/-! ## Concrete data used in the worked examples -/

/-- The mathematical ceiling of the division of two natural numbers. -/
def ceilDivSpec (a b : Nat) : Nat := a / b + (if a % b = 0 then 0 else 1)

/-- 2024-01-10. -/
def dJan10 : JsDate := ⟨2024, 0, 10, by decide, by decide, by decide⟩

/-- 2024-01-15. -/
def dJan15 : JsDate := ⟨2024, 0, 15, by decide, by decide, by decide⟩

/-- 2024-02-01. -/
def dFeb01 : JsDate := ⟨2024, 1, 1, by decide, by decide, by decide⟩

/-- 2024-02-15. -/
def dFeb15 : JsDate := ⟨2024, 1, 15, by decide, by decide, by decide⟩

/-- 2024-03-20. -/
def dMar20 : JsDate := ⟨2024, 2, 20, by decide, by decide, by decide⟩

/-- 0050-01-07: a date whose `getFullYear()` is between 0 and 99, so the
`Date` constructor used by the Weekly branch remaps its year to 1950. -/
def dYear50 : JsDate := ⟨50, 0, 7, by decide, by decide, by decide⟩

/-- A trade on 2024-01-10 (second week of January). -/
def wTrade1 : StockTradeData := ⟨"w1", dJan10, 1, 1, "AAPL"⟩

/-- A trade on 2024-02-01 (first week of February). -/
def wTrade2 : StockTradeData := ⟨"w2", dFeb01, 1, 1, "MSFT"⟩

/-- The first trade of the monthly worked example: 2024-02-01, size 10,
price 100. -/
def mTrade1 : StockTradeData := ⟨"m1", dFeb01, 10, 100, "AAPL"⟩

/-- The second trade of the monthly worked example: 2024-02-15, size 30,
price 200. -/
def mTrade2 : StockTradeData := ⟨"m2", dFeb15, 30, 200, "MSFT"⟩

/-- The first trade of the quarterly worked example: 2024-01-15. -/
def qTrade1 : StockTradeData := ⟨"q1", dJan15, 5, 50, "AAPL"⟩

/-- The second trade of the quarterly worked example: 2024-03-20. -/
def qTrade2 : StockTradeData := ⟨"q2", dMar20, 7, 70, "MSFT"⟩

/-- The single bucket produced by the monthly worked example. -/
def monthlyBucket : AggregatedTradeData :=
  { period := "2024-02", totalTradeSize := 40, averagePrice := 175,
    tradeCount := 2, symbols := {"AAPL", "MSFT"} }

/-! ## Order properties of the lexicographic comparison -/

theorem char_eq_of_toNat_eq {a b : Char} (h : a.toNat = b.toNat) : a = b :=
  Char.ext (UInt32.toNat.inj h)

theorem charListLtB_nil_right : ∀ l : List Char, charListLtB l [] = false
  | [] => rfl
  | _ :: _ => rfl

theorem charListLtB_irrefl (l : List Char) : charListLtB l l = false := by
  induction l with
  | nil => rfl
  | cons a as ih => simp [charListLtB, ih, Nat.lt_irrefl]

theorem charListLtB_asymm :
    ∀ {l m : List Char}, charListLtB l m = true → charListLtB m l = false
  | l, [], h => by rw [charListLtB_nil_right] at h; cases h
  | [], _ :: _, _ => rfl
  | a :: as, b :: bs, h => by
    by_cases hab : a.toNat < b.toNat
    · simp [charListLtB, hab, Nat.lt_asymm hab]
    · by_cases hba : b.toNat < a.toNat
      · simp [charListLtB, hab, hba] at h
      · simp only [charListLtB, hab, hba, if_false] at h ⊢
        exact charListLtB_asymm h

theorem charListLtB_eq_of_not :
    ∀ {l m : List Char}, charListLtB l m = false → charListLtB m l = false →
      l = m
  | [], [], _, _ => rfl
  | [], _ :: _, h, _ => by cases h
  | _ :: _, [], _, h => by cases h
  | a :: as, b :: bs, h, h2 => by
    by_cases hab : a.toNat < b.toNat
    · simp [charListLtB, hab] at h
    · by_cases hba : b.toNat < a.toNat
      · simp [charListLtB, hba] at h2
      · have hv : a = b :=
          char_eq_of_toNat_eq (Nat.le_antisymm (Nat.le_of_not_lt hba)
            (Nat.le_of_not_lt hab))
        subst hv
        simp only [charListLtB, Nat.lt_irrefl, if_false] at h h2
        exact congrArg _ (charListLtB_eq_of_not h h2)

theorem charListLtB_trans :
    ∀ {l m n : List Char}, charListLtB l m = true → charListLtB m n = true →
      charListLtB l n = true
  | _, m, [], _, h2 => by rw [charListLtB_nil_right] at h2; cases h2
  | [], _, _ :: _, _, _ => rfl
  | _ :: _, [], _ :: _, h, _ => by cases h
  | a :: as, b :: bs, c :: cs, h, h2 => by
    by_cases hab : a.toNat < b.toNat
    · by_cases hbc : b.toNat < c.toNat
      · simp [charListLtB, Nat.lt_trans hab hbc]
      · by_cases hcb : c.toNat < b.toNat
        · simp [charListLtB, hbc, hcb] at h2
        · have : b = c :=
            char_eq_of_toNat_eq (Nat.le_antisymm (Nat.le_of_not_lt hcb)
              (Nat.le_of_not_lt hbc))
          subst this
          simp [charListLtB, hab]
    · by_cases hba : b.toNat < a.toNat
      · simp [charListLtB, hab, hba] at h
      · have heq : b.toNat = a.toNat :=
          Nat.le_antisymm (Nat.le_of_not_lt hab) (Nat.le_of_not_lt hba)
        simp only [charListLtB] at h h2
        rw [heq] at h h2
        simp only [Nat.lt_irrefl, if_false] at h
        by_cases hac : a.toNat < c.toNat
        · simp [charListLtB, hac]
        · by_cases hca : c.toNat < a.toNat
          · simp [hac, hca] at h2
          · simp only [hac, hca, if_false] at h2
            simp only [charListLtB, hac, hca, if_false]
            exact charListLtB_trans h h2

instance : IsTotal AggregatedTradeData periodLe := by
  constructor
  intro a b
  unfold periodLe
  by_cases h : charListLtB b.period.data a.period.data = false
  · exact Or.inl h
  · exact Or.inr (charListLtB_asymm (by simpa using h))

instance : IsTrans AggregatedTradeData periodLe := by
  constructor
  intro a b c hab hbc
  unfold periodLe at hab hbc ⊢
  by_cases hca : charListLtB c.period.data a.period.data = false
  · exact hca
  · exfalso
    replace hca : charListLtB c.period.data a.period.data = true := by
      simpa using hca
    by_cases hx : charListLtB a.period.data b.period.data = true
    · exact absurd (charListLtB_trans hca hx) (by simp [hbc])
    · have hd : a.period.data = b.period.data :=
        charListLtB_eq_of_not (by simpa using hx) hab
      rw [hd] at hca
      exact absurd hca (by simp [hbc])

instance : IsTotal StockTradeData tradeLe :=
  ⟨fun a b => Int.le_total _ _⟩

instance : IsTrans StockTradeData tradeLe :=
  ⟨fun _ _ _ hab hbc => le_trans hab hbc⟩

/-! ## Lemmas about the grouping pass -/

theorem keys_insertTrade (m : List (String × List StockTradeData))
    (key : String) (t : StockTradeData) :
    (insertTrade m key t).map Prod.fst =
      if key ∈ m.map Prod.fst then m.map Prod.fst
      else m.map Prod.fst ++ [key] := by
  induction m with
  | nil => simp [insertTrade]
  | cons e rest ih =>
    obtain ⟨k, l⟩ := e
    by_cases hk : k = key
    · subst hk
      simp [insertTrade]
    · simp only [insertTrade, if_neg hk, List.map_cons, ih]
      have : (key ∈ k :: rest.map Prod.fst) ↔ key ∈ rest.map Prod.fst := by
        simp [Ne.symm hk]
      by_cases hmem : key ∈ rest.map Prod.fst
      · simp [hmem, this]
      · simp [hmem, this]

theorem find_insertTrade (m : List (String × List StockTradeData))
    (key k2 : String) (t : StockTradeData) :
    findGroup (insertTrade m key t) k2 =
      if k2 = key then some ((findGroup m key).getD [] ++ [t])
      else findGroup m k2 := by
  induction m with
  | nil =>
    by_cases h : k2 = key
    · subst h; simp [insertTrade, findGroup]
    · simp [insertTrade, findGroup, h, Ne.symm h]
  | cons e rest ih =>
    obtain ⟨k, l⟩ := e
    by_cases hk : k = key
    · subst hk
      by_cases h2 : k2 = k
      · subst h2; simp [insertTrade, findGroup]
      · simp [insertTrade, findGroup, h2, Ne.symm h2]
    · by_cases h2 : k2 = key
      · subst h2
        simp [insertTrade, findGroup, hk, Ne.symm hk, ih]
      · by_cases h3 : k = k2
        · subst h3
          simp [insertTrade, findGroup, h2]
        · simp [insertTrade, findGroup, hk, h2, h3, ih]

theorem groupTradesByPeriod_eq_foldl (sortedTrades : List StockTradeData)
    (periodLength : Nat) (g : String) :
    groupTradesByPeriod sortedTrades periodLength g =
      sortedTrades.foldl (groupStep g) [] := rfl

theorem find_groupFold (g : String) :
    ∀ (ts : List StockTradeData) (m : List (String × List StockTradeData))
      (k : String),
      (findGroup (ts.foldl (groupStep g) m) k).getD [] =
        (findGroup m k).getD [] ++
          ts.filter (fun t => getPeriodKey t.timeStamp g = k) := by
  intro ts
  induction ts with
  | nil => simp
  | cons t ts ih =>
    intro m k
    rw [List.foldl_cons, ih, List.filter_cons]
    unfold groupStep
    rw [find_insertTrade]
    by_cases h : getPeriodKey t.timeStamp g = k
    · simp [h, List.append_assoc]
    · simp [h, Ne.symm h]

theorem mem_keys_groupFold (g : String) :
    ∀ (ts : List StockTradeData) (m : List (String × List StockTradeData))
      (k : String),
      (k ∈ (ts.foldl (groupStep g) m).map Prod.fst) ↔
        k ∈ m.map Prod.fst ∨ ∃ t ∈ ts, getPeriodKey t.timeStamp g = k := by
  intro ts
  induction ts with
  | nil => simp
  | cons t ts ih =>
    intro m k
    rw [List.foldl_cons, ih]
    unfold groupStep
    rw [keys_insertTrade]
    by_cases hmem : getPeriodKey t.timeStamp g ∈ m.map Prod.fst
    · simp only [hmem, if_true, List.exists_mem_cons_iff]
      have hCk : getPeriodKey t.timeStamp g = k → k ∈ m.map Prod.fst :=
        fun h => h ▸ hmem
      tauto
    · simp only [hmem, if_false, List.mem_append, List.mem_singleton,
        List.exists_mem_cons_iff]
      have hc : (k = getPeriodKey t.timeStamp g) ↔
          (getPeriodKey t.timeStamp g = k) := eq_comm
      tauto

theorem keys_nodup_groupFold (g : String) :
    ∀ (ts : List StockTradeData) (m : List (String × List StockTradeData)),
      (m.map Prod.fst).Nodup → ((ts.foldl (groupStep g) m).map Prod.fst).Nodup := by
  intro ts
  induction ts with
  | nil => intro m h; simpa using h
  | cons t ts ih =>
    intro m h
    rw [List.foldl_cons]
    apply ih
    unfold groupStep
    rw [keys_insertTrade]
    by_cases hmem : getPeriodKey t.timeStamp g ∈ m.map Prod.fst
    · simpa [hmem] using h
    · simp only [hmem, if_false]
      simp [List.nodup_append, h, hmem]

theorem findGroup_eq_some_of_mem :
    ∀ (m : List (String × List StockTradeData)) (k : String)
      (l : List StockTradeData),
      (m.map Prod.fst).Nodup → (k, l) ∈ m → findGroup m k = some l := by
  intro m
  induction m with
  | nil => intro k l _ h; cases h
  | cons e rest ih =>
    intro k l hnd hmem
    obtain ⟨k1, l1⟩ := e
    rcases List.mem_cons.1 hmem with heq | hmem2
    · injection heq with h1 h2
      subst h1; subst h2
      simp [findGroup]
    · have hk1 : k1 ≠ k := by
        intro h
        subst h
        have : k1 ∈ rest.map Prod.fst :=
          List.mem_map_of_mem Prod.fst hmem2
        simp [List.nodup_cons, this] at hnd
      simp only [findGroup, if_neg hk1]
      exact ih k l (by simp [List.nodup_cons] at hnd; exact hnd.2) hmem2

theorem mem_of_findGroup_eq_some :
    ∀ (m : List (String × List StockTradeData)) (k : String)
      (l : List StockTradeData),
      findGroup m k = some l → (k, l) ∈ m := by
  intro m
  induction m with
  | nil => intro k l h; cases h
  | cons e rest ih =>
    intro k l h
    obtain ⟨k1, l1⟩ := e
    by_cases hk : k1 = k
    · subst hk
      simp only [findGroup, if_pos rfl] at h
      injection h with h
      subst h
      exact List.mem_cons_self _ _
    · simp only [findGroup, if_neg hk] at h
      exact List.mem_cons_of_mem _ (ih k l h)

theorem flatten_insertTrade (m : List (String × List StockTradeData))
    (key : String) (t : StockTradeData) :
    ((insertTrade m key t).map Prod.snd).flatten.Perm
      (t :: (m.map Prod.snd).flatten) := by
  induction m with
  | nil => simp [insertTrade]
  | cons e rest ih =>
    obtain ⟨k, l⟩ := e
    by_cases hk : k = key
    · subst hk
      simp [insertTrade]
    · simp only [insertTrade, if_neg hk, List.map_cons, List.flatten_cons]
      exact (ih.append_left l).trans List.perm_middle

theorem flatten_groupFold (g : String) :
    ∀ (ts : List StockTradeData) (m : List (String × List StockTradeData)),
      ((ts.foldl (groupStep g) m).map Prod.snd).flatten.Perm
        ((m.map Prod.snd).flatten ++ ts) := by
  intro ts
  induction ts with
  | nil => simp
  | cons t ts ih =>
    intro m
    rw [List.foldl_cons]
    exact (ih _).trans
      (((flatten_insertTrade m _ t).append_right ts).trans
        List.perm_middle.symm)

/-! ## Lemmas about the statistics pass -/

theorem foldl_add_map (f : StockTradeData → ℚ) :
    ∀ (l : List StockTradeData) (a : ℚ),
      l.foldl (fun sum t => sum + f t) a = a + (l.map f).sum := by
  intro l
  induction l with
  | nil => simp
  | cons t l ih =>
    intro a
    simp [ih, add_assoc]

theorem foldl_cons_multiset :
    ∀ (l : List StockTradeData) (s : Multiset String),
      l.foldl (fun m t => t.symbol ::ₘ m) s = s + ↑(l.map fun t => t.symbol) := by
  intro l
  induction l with
  | nil => simp
  | cons t l ih =>
    intro s
    rw [List.foldl_cons, ih, List.map_cons]
    rw [← Multiset.cons_coe, ← Multiset.singleton_add, ← Multiset.singleton_add]
    rw [← add_assoc, add_comm s _]

theorem mkBucket_period (k : String) (l : List StockTradeData) :
    (mkBucket k l).period = k := rfl

theorem mkBucket_tradeCount (k : String) (l : List StockTradeData) :
    (mkBucket k l).tradeCount = l.length := rfl

theorem mkBucket_totalTradeSize (k : String) (l : List StockTradeData) :
    (mkBucket k l).totalTradeSize = (l.map fun t => t.tradeSize).sum := by
  simp [mkBucket, foldl_add_map]

theorem mkBucket_symbols (k : String) (l : List StockTradeData) :
    (mkBucket k l).symbols = ↑(l.map fun t => t.symbol) := by
  simp [mkBucket, foldl_cons_multiset]

theorem mkBucket_averagePrice (k : String) (l : List StockTradeData) :
    (mkBucket k l).averagePrice =
      if 0 < (l.map fun t => t.tradeSize).sum then
        (l.map fun t => t.price * t.tradeSize).sum / (l.map fun t => t.tradeSize).sum
      else 0 := by
  simp [mkBucket, foldl_add_map]

theorem mkBucket_congr_perm {l l' : List StockTradeData} (k : String)
    (h : l.Perm l') : mkBucket k l = mkBucket k l' := by
  have hsz : (l.map fun t => t.tradeSize).sum = (l'.map fun t => t.tradeSize).sum :=
    (h.map _).sum_eq
  have hws : (l.map fun t => t.price * t.tradeSize).sum =
      (l'.map fun t => t.price * t.tradeSize).sum := (h.map _).sum_eq
  have hsym : ((l.map fun t => t.symbol : List String) : Multiset String) =
      ↑(l'.map fun t => t.symbol) := Multiset.coe_eq_coe.2 (h.map _)
  unfold mkBucket
  rw [foldl_add_map, foldl_add_map, foldl_add_map, foldl_add_map,
    foldl_cons_multiset, foldl_cons_multiset, hsz, hws, hsym, h.length_eq]

/-! ## Lemmas about `calculateAggregatedData` and `aggregateTrades` -/

theorem calc_perm (gs : List (String × List StockTradeData)) :
    (calculateAggregatedData gs).Perm (gs.map fun e => mkBucket e.1 e.2) :=
  List.perm_insertionSort periodLe _

theorem sorted_calc (gs : List (String × List StockTradeData)) :
    List.Sorted periodLe (calculateAggregatedData gs) :=
  List.sorted_insertionSort periodLe _

theorem mem_calc (gs : List (String × List StockTradeData))
    (b : AggregatedTradeData) :
    b ∈ calculateAggregatedData gs ↔ ∃ e ∈ gs, b = mkBucket e.1 e.2 := by
  rw [(calc_perm gs).mem_iff, List.mem_map]
  constructor
  · rintro ⟨e, he, rfl⟩; exact ⟨e, he, rfl⟩
  · rintro ⟨e, he, rfl⟩; exact ⟨e, he, rfl⟩

theorem aggregateTrades_nil (g : String) : aggregateTrades [] g = [] := rfl

theorem aggregateTrades_eq_calc (trades : List StockTradeData) (g : String)
    (h : trades ≠ []) :
    aggregateTrades trades g =
      calculateAggregatedData
        ((List.insertionSort tradeLe trades).foldl (groupStep g) []) := by
  unfold aggregateTrades
  rw [if_neg (by simpa [List.isEmpty_iff] using h)]
  rfl

/-- Every bucket of the output is the bucket of the trades of its period
key; the trade list of the bucket is, up to permutation, the filter of the
input list by the period key. -/
theorem bucket_characterisation (trades : List StockTradeData) (g : String)
    (b : AggregatedTradeData) (hb : b ∈ aggregateTrades trades g) :
    b = mkBucket b.period
        (trades.filter fun t => getPeriodKey t.timeStamp g = b.period) := by
  have hne : trades ≠ [] := by
    intro h
    rw [h, aggregateTrades_nil] at hb
    cases hb
  rw [aggregateTrades_eq_calc trades g hne] at hb
  rw [mem_calc] at hb
  obtain ⟨e, he, rfl⟩ := hb
  obtain ⟨k, l⟩ := e
  have hnd : ((((List.insertionSort tradeLe trades).foldl (groupStep g)
      [])).map Prod.fst).Nodup :=
    keys_nodup_groupFold g _ [] (by simp)
  have hfind := findGroup_eq_some_of_mem _ k l hnd he
  have hl : l = (List.insertionSort tradeLe trades).filter
      (fun t => getPeriodKey t.timeStamp g = k) := by
    have := find_groupFold g (List.insertionSort tradeLe trades) [] k
    rw [hfind] at this
    simpa [findGroup] using this
  rw [mkBucket_period]
  apply mkBucket_congr_perm
  rw [hl]
  exact (List.perm_insertionSort tradeLe trades).filter _

/-- The multiset of all bucketed trades is the multiset of input trades. -/
theorem flatten_groups_perm (trades : List StockTradeData) (g : String) :
    ((((List.insertionSort tradeLe trades).foldl (groupStep g) []).map
      Prod.snd).flatten).Perm trades := by
  have h := flatten_groupFold g (List.insertionSort tradeLe trades) []
  simpa using h.trans (List.perm_insertionSort tradeLe trades)

theorem string_eq_of_data {s t : String} (h : s.data = t.data) : s = t := by
  cases s; cases t
  simp only at h
  rw [h]

theorem sum_flatten_map (f : StockTradeData → ℚ)
    (L : List (List StockTradeData)) :
    ((L.flatten).map f).sum = (L.map fun l => (l.map f).sum).sum := by
  rw [List.map_flatten, List.sum_flatten, List.map_map]
  rfl

/-- The total trade size of the output buckets adds up to the total trade
size of the input. -/
theorem aggregateTrades_sum_size (trades : List StockTradeData) (g : String)
    (h : trades ≠ []) :
    ((aggregateTrades trades g).map fun b => b.totalTradeSize).sum =
      (trades.map fun t => t.tradeSize).sum := by
  rw [aggregateTrades_eq_calc trades g h]
  have h1 := ((calc_perm ((List.insertionSort tradeLe trades).foldl
      (groupStep g) [])).map fun b => b.totalTradeSize).sum_eq
  rw [h1, List.map_map]
  have h2 : (((List.insertionSort tradeLe trades).foldl (groupStep g)
        []).map ((fun b => b.totalTradeSize) ∘ fun e => mkBucket e.1 e.2)) =
      (((List.insertionSort tradeLe trades).foldl (groupStep g) []).map
        fun e => ((e.2.map fun t => t.tradeSize).sum)) :=
    List.map_congr_left fun e _ => mkBucket_totalTradeSize e.1 e.2
  rw [h2]
  have h3 : (((List.insertionSort tradeLe trades).foldl (groupStep g)
        []).map fun e => ((e.2.map fun t => t.tradeSize).sum)) =
      ((((List.insertionSort tradeLe trades).foldl (groupStep g) []).map
        Prod.snd).map fun l => ((l.map fun t => t.tradeSize).sum)) := by
    rw [List.map_map]
    rfl
  rw [h3, ← sum_flatten_map]
  exact ((flatten_groups_perm trades g).map fun t => t.tradeSize).sum_eq

/-- The trade counts of the output buckets add up to the input length. -/
theorem aggregateTrades_sum_count (trades : List StockTradeData) (g : String)
    (h : trades ≠ []) :
    ((aggregateTrades trades g).map fun b => b.tradeCount).sum =
      trades.length := by
  rw [aggregateTrades_eq_calc trades g h]
  have h1 := ((calc_perm ((List.insertionSort tradeLe trades).foldl
      (groupStep g) [])).map fun b => b.tradeCount).sum_eq
  rw [h1, List.map_map]
  have h2 : (((List.insertionSort tradeLe trades).foldl (groupStep g)
        []).map ((fun b => b.tradeCount) ∘ fun e => mkBucket e.1 e.2)) =
      ((((List.insertionSort tradeLe trades).foldl (groupStep g) []).map
        Prod.snd).map List.length) := by
    rw [List.map_map]
    rfl
  rw [h2, ← List.length_flatten]
  exact (flatten_groups_perm trades g).length_eq

/-! ## Output order and permutation invariance -/

theorem eq_of_perm_of_sorted_nodup_periods :
    ∀ {l l' : List AggregatedTradeData}, l.Perm l' → List.Sorted periodLe l →
      List.Sorted periodLe l' → (l.map fun b => b.period).Nodup → l = l' := by
  intro l
  induction l with
  | nil =>
    intro l' hp _ _ _
    exact (List.Perm.eq_nil hp.symm).symm
  | cons a l ih =>
    intro l' hp hs hs' hnd
    cases l' with
    | nil => cases List.Perm.eq_nil hp
    | cons a' l'' =>
      have haa' : a = a' := by
        have ha' : a' ∈ a :: l := hp.mem_iff.2 (List.mem_cons_self a' l'')
        rcases List.mem_cons.1 ha' with h | h
        · exact h.symm
        · have ha : a ∈ a' :: l'' := hp.mem_iff.1 (List.mem_cons_self a l)
          rcases List.mem_cons.1 ha with h2 | h2
          · exact h2
          · have h3 : periodLe a a' := (List.sorted_cons.1 hs).1 a' h
            have h4 : periodLe a' a := (List.sorted_cons.1 hs').1 a h2
            have hdata : a.period.data = a'.period.data :=
              charListLtB_eq_of_not h4 h3
            have hmem : a.period ∈ l.map fun b => b.period :=
              List.mem_map.2 ⟨a', h, (string_eq_of_data hdata).symm⟩
            exact absurd hmem (List.nodup_cons.1 hnd).1
      subst haa'
      have hl : l.Perm l'' := hp.cons_inv
      rw [ih hl (List.sorted_cons.1 hs).2 (List.sorted_cons.1 hs').2
        (List.nodup_cons.1 hnd).2]

theorem entry_snd_eq (trades : List StockTradeData) (g : String) :
    ∀ e ∈ (List.insertionSort tradeLe trades).foldl (groupStep g) [],
      e.2 = (List.insertionSort tradeLe trades).filter
        (fun t => getPeriodKey t.timeStamp g = e.1) := by
  intro e he
  obtain ⟨k, l⟩ := e
  have hnd : ((((List.insertionSort tradeLe trades).foldl (groupStep g)
      [])).map Prod.fst).Nodup :=
    keys_nodup_groupFold g _ [] (by simp)
  have hfind := findGroup_eq_some_of_mem _ k l hnd he
  have := find_groupFold g (List.insertionSort tradeLe trades) [] k
  rw [hfind] at this
  simpa [findGroup] using this

theorem groups_map_eq (trades : List StockTradeData) (g : String) :
    (((List.insertionSort tradeLe trades).foldl (groupStep g) []).map
        fun e => mkBucket e.1 e.2) =
      ((((List.insertionSort tradeLe trades).foldl (groupStep g) []).map
        Prod.fst).map fun k =>
          mkBucket k ((List.insertionSort tradeLe trades).filter
            fun t => getPeriodKey t.timeStamp g = k)) := by
  rw [List.map_map]
  exact List.map_congr_left fun e he => by
    rw [entry_snd_eq trades g e he]
    rfl

theorem nodup_periods (trades : List StockTradeData) (g : String)
    (h : trades ≠ []) :
    ((aggregateTrades trades g).map fun b => b.period).Nodup := by
  rw [aggregateTrades_eq_calc trades g h]
  have hp := (calc_perm ((List.insertionSort tradeLe trades).foldl
      (groupStep g) [])).map fun b => b.period
  refine hp.nodup_iff.2 ?_
  rw [List.map_map]
  have : ((((List.insertionSort tradeLe trades).foldl (groupStep g)
        []).map ((fun b => b.period) ∘ fun e => mkBucket e.1 e.2))) =
      (((List.insertionSort tradeLe trades).foldl (groupStep g) []).map
        Prod.fst) := by
    exact List.map_congr_left fun e _ => rfl
  rw [this]
  exact keys_nodup_groupFold g _ [] (by simp)

/-- Aggregation does not depend on the order of the input list. -/
theorem aggregateTrades_perm_invariant (ts ts' : List StockTradeData)
    (g : String) (hp : ts.Perm ts') :
    aggregateTrades ts g = aggregateTrades ts' g := by
  by_cases hne : ts = []
  · subst hne
    rw [List.Perm.eq_nil hp.symm]
  · have hne' : ts' ≠ [] := by
      intro h
      subst h
      exact hne (List.Perm.eq_nil hp)
    have hS : (List.insertionSort tradeLe ts).Perm
        (List.insertionSort tradeLe ts') :=
      (List.perm_insertionSort tradeLe ts).trans
        (hp.trans (List.perm_insertionSort tradeLe ts').symm)
    have hKnd : ((((List.insertionSort tradeLe ts).foldl (groupStep g)
        [])).map Prod.fst).Nodup := keys_nodup_groupFold g _ [] (by simp)
    have hK'nd : ((((List.insertionSort tradeLe ts').foldl (groupStep g)
        [])).map Prod.fst).Nodup := keys_nodup_groupFold g _ [] (by simp)
    have hKmem : ∀ k,
        k ∈ (((List.insertionSort tradeLe ts).foldl (groupStep g)
          [])).map Prod.fst ↔
        k ∈ (((List.insertionSort tradeLe ts').foldl (groupStep g)
          [])).map Prod.fst := by
      intro k
      rw [mem_keys_groupFold, mem_keys_groupFold]
      simp only [List.map_nil, List.not_mem_nil, false_or]
      constructor
      · rintro ⟨t, ht, hk⟩
        exact ⟨t, hS.subset ht, hk⟩
      · rintro ⟨t, ht, hk⟩
        exact ⟨t, hS.symm.subset ht, hk⟩
    have hKperm := (List.perm_ext_iff_of_nodup hKnd hK'nd).2 hKmem
    have hout : (aggregateTrades ts g).Perm (aggregateTrades ts' g) := by
      rw [aggregateTrades_eq_calc ts g hne, aggregateTrades_eq_calc ts' g hne']
      refine (calc_perm _).trans (List.Perm.trans ?_ (calc_perm _).symm)
      rw [groups_map_eq ts g, groups_map_eq ts' g]
      refine (hKperm.map _).trans ?_
      have : ∀ k ∈ (((List.insertionSort tradeLe ts').foldl (groupStep g)
          [])).map Prod.fst,
          mkBucket k ((List.insertionSort tradeLe ts).filter
            fun t => getPeriodKey t.timeStamp g = k) =
          mkBucket k ((List.insertionSort tradeLe ts').filter
            fun t => getPeriodKey t.timeStamp g = k) :=
        fun k _ => mkBucket_congr_perm k (hS.filter _)
      rw [List.map_congr_left this]
    have hsorted : List.Sorted periodLe (aggregateTrades ts g) := by
      rw [aggregateTrades_eq_calc ts g hne]
      exact sorted_calc _
    have hsorted' : List.Sorted periodLe (aggregateTrades ts' g) := by
      rw [aggregateTrades_eq_calc ts' g hne']
      exact sorted_calc _
    exact eq_of_perm_of_sorted_nodup_periods hout hsorted hsorted'
      (nodup_periods ts g hne)

/-! ## Decimal strings: shape, value and order -/

theorem natDigitsAux_fuel :
    ∀ (f1 f2 n : Nat), n < f1 → n < f2 → natDigitsAux f1 n = natDigitsAux f2 n := by
  intro f1
  induction f1 with
  | zero => intro f2 n h; omega
  | succ f1 ih =>
    intro f2 n h1 h2
    cases f2 with
    | zero => omega
    | succ f2 =>
      simp only [natDigitsAux]
      by_cases h : n < 10
      · simp [h]
      · simp only [h, if_false]
        rw [ih f2 (n / 10) (by omega) (by omega)]

theorem natDigits_eq (n : Nat) :
    natDigits n = if n < 10 then [digitChar n]
      else natDigits (n / 10) ++ [digitChar (n % 10)] := by
  show natDigitsAux (n + 1) n = _
  rw [natDigitsAux]
  by_cases h : n < 10
  · simp [h]
  · simp only [h, if_false]
    rw [natDigitsAux_fuel n (n / 10 + 1) (n / 10) (by omega) (by omega)]
    rfl

theorem digitChar_toNat : ∀ n, n < 10 → (digitChar n).toNat = 48 + n := by
  decide

theorem digitChar_lt :
    ∀ n, n < 10 → ∀ m, m < 10 →
      ((digitChar n).toNat < (digitChar m).toNat ↔ n < m) := by
  decide

theorem digitChar_inj :
    ∀ n, n < 10 → ∀ m, m < 10 → (digitChar n = digitChar m ↔ n = m) := by
  decide

theorem parseNatChars_append_digit (l : List Char) (c : Char) :
    parseNatChars (l ++ [c]) = 10 * parseNatChars l + (c.toNat - 48) := by
  unfold parseNatChars
  rw [List.foldl_append]
  rfl

theorem parseNatChars_natDigits (n : Nat) :
    parseNatChars (natDigits n) = n := by
  induction n using Nat.strong_induction_on with
  | _ n ih =>
    rw [natDigits_eq]
    by_cases h : n < 10
    · rw [if_pos h]
      show 10 * 0 + ((digitChar n).toNat - 48) = n
      rw [digitChar_toNat n h]
      omega
    · rw [if_neg h, parseNatChars_append_digit, ih (n / 10) (by omega),
        digitChar_toNat (n % 10) (by omega)]
      omega

theorem natDigits_inj {a b : Nat} (h : natDigits a = natDigits b) : a = b := by
  rw [← parseNatChars_natDigits a, ← parseNatChars_natDigits b, h]

theorem natDigits_ne_nil (n : Nat) : natDigits n ≠ [] := by
  rw [natDigits_eq]
  by_cases h : n < 10
  · simp [h]
  · simp [h]

theorem mem_natDigits_isDigit :
    ∀ (n : Nat), ∀ c ∈ natDigits n, 48 ≤ c.toNat ∧ c.toNat ≤ 57 := by
  intro n
  induction n using Nat.strong_induction_on with
  | _ n ih =>
    intro c hc
    rw [natDigits_eq] at hc
    by_cases h : n < 10
    · rw [if_pos h] at hc
      rcases List.mem_singleton.1 hc with rfl
      rw [digitChar_toNat n h]
      omega
    · rw [if_neg h] at hc
      rcases List.mem_append.1 hc with h2 | h2
      · exact ih (n / 10) (by omega) c h2
      · rcases List.mem_singleton.1 h2 with rfl
        rw [digitChar_toNat (n % 10) (by omega)]
        omega

theorem natDigits_head_digit (n : Nat) :
    ∃ c cs, natDigits n = c :: cs ∧ 48 ≤ c.toNat ∧ c.toNat ≤ 57 := by
  cases hd : natDigits n with
  | nil => exact absurd hd (natDigits_ne_nil n)
  | cons c cs =>
    have hc : c ∈ natDigits n := by rw [hd]; exact List.mem_cons_self c cs
    exact ⟨c, cs, rfl, mem_natDigits_isDigit n c hc⟩

theorem parseNatChars_replicate_zero (k : Nat) (l : List Char) :
    parseNatChars (List.replicate k '0' ++ l) = parseNatChars l := by
  induction k with
  | zero => simp
  | succ k ih =>
    rw [List.replicate_succ, List.cons_append]
    show parseNatChars (List.replicate k '0' ++ l) = _
    exact ih

theorem natDigits_small {n : Nat} (h : n < 10) :
    natDigits n = [digitChar n] := by
  rw [natDigits_eq, if_pos h]

theorem natDigits_two {n : Nat} (h1 : 10 ≤ n) (h2 : n < 100) :
    natDigits n = [digitChar (n / 10), digitChar (n % 10)] := by
  rw [natDigits_eq, if_neg (by omega), natDigits_small (show n / 10 < 10 by omega)]
  rfl

theorem natDigits_four {y : Nat} (h1 : 1000 ≤ y) (h2 : y ≤ 9999) :
    natDigits y = [digitChar (y / 1000), digitChar (y / 100 % 10),
      digitChar (y / 10 % 10), digitChar (y % 10)] := by
  rw [natDigits_eq, if_neg (by omega)]
  rw [natDigits_eq, if_neg (by omega)]
  rw [natDigits_eq, if_neg (by omega)]
  rw [natDigits_small (show y / 10 / 10 / 10 < 10 by omega)]
  have e2 : y / 10 / 10 / 10 = y / 1000 := by omega
  have e1 : y / 10 / 10 = y / 100 := by omega
  rw [e2, e1]
  rfl

theorem pad2_data {n : Nat} (h : n < 100) :
    (pad2 n).data = [digitChar (n / 10), digitChar (n % 10)] := by
  unfold pad2 padStart natToString
  rw [String.data_append]
  by_cases h10 : n < 10
  · rw [natDigits_small h10]
    show List.replicate (2 - 1) '0' ++ [digitChar n] = _
    have hz : digitChar (n / 10) = '0' := by
      rw [show n / 10 = 0 by omega]
      rfl
    have hm : digitChar (n % 10) = digitChar n := by
      rw [show n % 10 = n by omega]
    rw [hz, hm]
    rfl
  · rw [natDigits_two (by omega) h]
    show List.replicate (2 - 2) '0' ++ _ = _
    rfl

theorem charListLtB_cons_digit {u v : Nat} (hu : u < 10) (hv : v < 10)
    (l m : List Char) :
    charListLtB (digitChar u :: l) (digitChar v :: m) =
      if u < v then true else if v < u then false else charListLtB l m := by
  simp only [charListLtB]
  by_cases h1 : u < v
  · rw [if_pos ((digitChar_lt u hu v hv).2 h1), if_pos h1]
  · rw [if_neg (fun hh => h1 ((digitChar_lt u hu v hv).1 hh)), if_neg h1]
    by_cases h2 : v < u
    · rw [if_pos ((digitChar_lt v hv u hu).2 h2), if_pos h2]
    · rw [if_neg (fun hh => h2 ((digitChar_lt v hv u hu).1 hh)), if_neg h2]

theorem charListLtB_cons_same (c : Char) (l m : List Char) :
    charListLtB (c :: l) (c :: m) = charListLtB l m := by
  simp [charListLtB, Nat.lt_irrefl]

theorem charListLtB_append_eq_length :
    ∀ (s1 s2 t1 t2 : List Char), s1.length = s2.length →
      charListLtB (s1 ++ t1) (s2 ++ t2) =
        if charListLtB s1 s2 then true
        else if charListLtB s2 s1 then false
        else charListLtB t1 t2 := by
  intro s1
  induction s1 with
  | nil =>
    intro s2 t1 t2 h
    cases s2 with
    | nil => simp [charListLtB]
    | cons b s2 => simp at h
  | cons a s1 ih =>
    intro s2 t1 t2 h
    cases s2 with
    | nil => simp at h
    | cons b s2 =>
      simp only [List.cons_append, charListLtB]
      by_cases h1 : a.toNat < b.toNat
      · simp [h1]
      · by_cases h2 : b.toNat < a.toNat
        · simp [h1, h2]
        · simp only [h1, h2, if_false]
          exact ih s2 t1 t2 (by simpa using h)

theorem charListLtB_pad2 {n m : Nat} (hn : n < 100) (hm : m < 100) :
    (charListLtB (pad2 n).data (pad2 m).data = true) ↔ n < m := by
  rw [pad2_data hn, pad2_data hm,
    charListLtB_cons_digit (by omega) (by omega),
    charListLtB_cons_digit (by omega) (by omega)]
  have hf : charListLtB ([] : List Char) [] = false := rfl
  split_ifs with a1 a2 b1 b2 <;> simp_all <;> omega

theorem pad2_data_inj {n m : Nat} (hn : n < 100) (hm : m < 100)
    (h : (pad2 n).data = (pad2 m).data) : n = m := by
  rw [pad2_data hn, pad2_data hm] at h
  have h1 := List.head_eq_of_cons_eq h
  have h2 := List.head_eq_of_cons_eq (List.tail_eq_of_cons_eq h)
  have e1 : n / 10 = m / 10 := (digitChar_inj _ (by omega) _ (by omega)).1 h1
  have e2 : n % 10 = m % 10 := (digitChar_inj _ (by omega) _ (by omega)).1 h2
  omega

theorem charListLtB_year {y1 y2 : Nat} (h11 : 1000 ≤ y1) (h12 : y1 ≤ 9999)
    (h21 : 1000 ≤ y2) (h22 : y2 ≤ 9999) :
    (charListLtB (natDigits y1) (natDigits y2) = true) ↔ y1 < y2 := by
  rw [natDigits_four h11 h12, natDigits_four h21 h22,
    charListLtB_cons_digit (by omega) (by omega),
    charListLtB_cons_digit (by omega) (by omega),
    charListLtB_cons_digit (by omega) (by omega),
    charListLtB_cons_digit (by omega) (by omega),
    show charListLtB ([] : List Char) [] = false from rfl]
  split_ifs <;> simp <;> omega

/-! ## Shape of the period keys -/

theorem getPeriodKey_daily (d : JsDate) :
    getPeriodKey d "Daily" =
      intToString d.year ++ "-" ++ pad2 (d.month0 + 1) ++ "-" ++ pad2 d.day := rfl

theorem getPeriodKey_monthly (d : JsDate) :
    getPeriodKey d "Monthly" = intToString d.year ++ "-" ++ pad2 (d.month0 + 1) := rfl

theorem getPeriodKey_quarterly (d : JsDate) :
    getPeriodKey d "Quarterly" =
      intToString d.year ++ "-Q" ++ natToString (d.month0 / 3 + 1) := rfl

theorem getPeriodKey_unknown (d : JsDate) (g : String)
    (h : ¬(g = "Daily" ∨ g = "Weekly" ∨ g = "Monthly" ∨ g = "Quarterly")) :
    getPeriodKey d g = isoDateString d := by
  unfold getPeriodKey
  push_neg at h
  rw [if_neg h.1, if_neg h.2.1, if_neg h.2.2.1, if_neg h.2.2.2]

theorem intToString_of_large {y : Int} (h : 1000 ≤ y) :
    (intToString y).data = natDigits y.toNat := by
  unfold intToString
  rw [if_neg (by omega)]
  rfl

theorem pad2_month_lt (d : JsDate) : d.month0 + 1 < 100 := by
  have := d.month0_lt
  omega

theorem pad2_day_lt (d : JsDate) : d.day < 100 := by
  have := d.day_le
  omega

theorem daily_key_data (d : JsDate) :
    (getPeriodKey d "Daily").data =
      (intToString d.year).data ++
        ('-' :: ((pad2 (d.month0 + 1)).data ++ '-' :: (pad2 d.day).data)) := by
  rw [getPeriodKey_daily]
  simp [String.data_append, List.append_assoc]

theorem monthly_key_data (d : JsDate) :
    (getPeriodKey d "Monthly").data =
      (intToString d.year).data ++ ('-' :: (pad2 (d.month0 + 1)).data) := by
  rw [getPeriodKey_monthly]
  simp [String.data_append]

theorem quarterly_key_data (d : JsDate) :
    (getPeriodKey d "Quarterly").data =
      (intToString d.year).data ++
        ('-' :: 'Q' :: natDigits (d.month0 / 3 + 1)) := by
  rw [getPeriodKey_quarterly]
  simp [String.data_append, natToString]

theorem iso_key_data (d : JsDate) (g : String)
    (h : ¬(g = "Daily" ∨ g = "Weekly" ∨ g = "Monthly" ∨ g = "Quarterly")) :
    (getPeriodKey d g).data =
      (isoYearString d.year).data ++
        ('-' :: ((pad2 (d.month0 + 1)).data ++ '-' :: (pad2 d.day).data)) := by
  rw [getPeriodKey_unknown d g h]
  unfold isoDateString
  simp [String.data_append, List.append_assoc]

theorem charListLtB_single_digit {u v : Nat} (hu : u < 10) (hv : v < 10) :
    (charListLtB [digitChar u] [digitChar v] = true) ↔ u < v := by
  rw [show ([digitChar u] : List Char) = digitChar u :: [] from rfl,
    show ([digitChar v] : List Char) = digitChar v :: [] from rfl,
    charListLtB_cons_digit hu hv,
    show charListLtB ([] : List Char) [] = false from rfl]
  split_ifs <;> simp <;> omega

/-! ## Lexicographic key order versus chronological order -/

theorem daily_key_lt_iff (d1 d2 : JsDate)
    (hy11 : 1000 ≤ d1.year) (hy12 : d1.year ≤ 9999)
    (hy21 : 1000 ≤ d2.year) (hy22 : d2.year ≤ 9999) :
    (charListLtB (getPeriodKey d1 "Daily").data
        (getPeriodKey d2 "Daily").data = true) ↔
      (d1.year < d2.year ∨ (d1.year = d2.year ∧
        (d1.month0 < d2.month0 ∨ (d1.month0 = d2.month0 ∧ d1.day < d2.day)))) := by
  have hb11 : 1000 ≤ d1.year.toNat := by omega
  have hb12 : d1.year.toNat ≤ 9999 := by omega
  have hb21 : 1000 ≤ d2.year.toNat := by omega
  have hb22 : d2.year.toNat ≤ 9999 := by omega
  have len1 : (natDigits d1.year.toNat).length = 4 := by
    rw [natDigits_four hb11 hb12]; rfl
  have len2 : (natDigits d2.year.toNat).length = 4 := by
    rw [natDigits_four hb21 hb22]; rfl
  have lenm1 : ('-' :: (pad2 d1.day).data).length = 3 := by
    rw [pad2_data (pad2_day_lt d1)]; rfl
  have lenm2 : ('-' :: (pad2 d2.day).data).length = 3 := by
    rw [pad2_data (pad2_day_lt d2)]; rfl
  have lenp1 : ((pad2 (d1.month0 + 1)).data).length = 2 := by
    rw [pad2_data (pad2_month_lt d1)]; rfl
  have lenp2 : ((pad2 (d2.month0 + 1)).data).length = 2 := by
    rw [pad2_data (pad2_month_lt d2)]; rfl
  rw [daily_key_data d1, daily_key_data d2, intToString_of_large hy11,
    intToString_of_large hy21,
    charListLtB_append_eq_length _ _ _ _ (len1.trans len2.symm),
    charListLtB_cons_same,
    charListLtB_append_eq_length _ _ _ _ (lenp1.trans lenp2.symm),
    charListLtB_cons_same]
  split_ifs with hy1 hy2 hm1 hm2
  · have := (charListLtB_year hb11 hb12 hb21 hb22).1 hy1
    simp only [true_iff]
    left
    omega
  · have := (charListLtB_year hb21 hb22 hb11 hb12).1 hy2
    constructor
    · intro hh; cases hh
    · intro hh; exfalso; omega
  · have hYeq : natDigits d1.year.toNat = natDigits d2.year.toNat :=
      charListLtB_eq_of_not (by simpa using hy1) (by simpa using hy2)
    have hyeqN := natDigits_inj hYeq
    have hyeq : d1.year = d2.year := by omega
    have hmlt := (charListLtB_pad2 (pad2_month_lt d1) (pad2_month_lt d2)).1 hm1
    simp only [true_iff]
    right
    exact ⟨hyeq, Or.inl (by omega)⟩
  · have hYeq : natDigits d1.year.toNat = natDigits d2.year.toNat :=
      charListLtB_eq_of_not (by simpa using hy1) (by simpa using hy2)
    have hyeqN := natDigits_inj hYeq
    have hmlt := (charListLtB_pad2 (pad2_month_lt d2) (pad2_month_lt d1)).1 hm2
    constructor
    · intro hh; cases hh
    · intro hh
      exfalso
      rcases hh with h | ⟨he, h⟩
      · omega
      · rcases h with h | ⟨hm, h⟩ <;> omega
  · have hYeq : natDigits d1.year.toNat = natDigits d2.year.toNat :=
      charListLtB_eq_of_not (by simpa using hy1) (by simpa using hy2)
    have hyeqN := natDigits_inj hYeq
    have hyeq : d1.year = d2.year := by omega
    have hMeq : (pad2 (d1.month0 + 1)).data = (pad2 (d2.month0 + 1)).data :=
      charListLtB_eq_of_not (by simpa using hm1) (by simpa using hm2)
    have hmeq : d1.month0 = d2.month0 := by
      have := pad2_data_inj (pad2_month_lt d1) (pad2_month_lt d2) hMeq
      omega
    rw [charListLtB_pad2 (pad2_day_lt d1) (pad2_day_lt d2)]
    constructor
    · intro hh
      exact Or.inr ⟨hyeq, Or.inr ⟨hmeq, hh⟩⟩
    · intro hh
      rcases hh with h | ⟨_, h⟩
      · omega
      · rcases h with h | ⟨_, h⟩
        · omega
        · exact h

theorem monthly_key_lt_iff (d1 d2 : JsDate)
    (hy11 : 1000 ≤ d1.year) (hy12 : d1.year ≤ 9999)
    (hy21 : 1000 ≤ d2.year) (hy22 : d2.year ≤ 9999) :
    (charListLtB (getPeriodKey d1 "Monthly").data
        (getPeriodKey d2 "Monthly").data = true) ↔
      (d1.year < d2.year ∨ (d1.year = d2.year ∧ d1.month0 < d2.month0)) := by
  have hb11 : 1000 ≤ d1.year.toNat := by omega
  have hb12 : d1.year.toNat ≤ 9999 := by omega
  have hb21 : 1000 ≤ d2.year.toNat := by omega
  have hb22 : d2.year.toNat ≤ 9999 := by omega
  have len1 : (natDigits d1.year.toNat).length = 4 := by
    rw [natDigits_four hb11 hb12]; rfl
  have len2 : (natDigits d2.year.toNat).length = 4 := by
    rw [natDigits_four hb21 hb22]; rfl
  rw [monthly_key_data d1, monthly_key_data d2, intToString_of_large hy11,
    intToString_of_large hy21,
    charListLtB_append_eq_length _ _ _ _ (len1.trans len2.symm),
    charListLtB_cons_same]
  split_ifs with hy1 hy2
  · have := (charListLtB_year hb11 hb12 hb21 hb22).1 hy1
    simp only [true_iff]
    left
    omega
  · have := (charListLtB_year hb21 hb22 hb11 hb12).1 hy2
    constructor
    · intro hh; cases hh
    · intro hh; exfalso; omega
  · have hYeq : natDigits d1.year.toNat = natDigits d2.year.toNat :=
      charListLtB_eq_of_not (by simpa using hy1) (by simpa using hy2)
    have hyeqN := natDigits_inj hYeq
    have hyeq : d1.year = d2.year := by omega
    rw [charListLtB_pad2 (pad2_month_lt d1) (pad2_month_lt d2)]
    constructor
    · intro hh
      exact Or.inr ⟨hyeq, by omega⟩
    · intro hh
      rcases hh with h | ⟨_, h⟩
      · omega
      · omega

theorem quarterly_key_lt_iff (d1 d2 : JsDate)
    (hy11 : 1000 ≤ d1.year) (hy12 : d1.year ≤ 9999)
    (hy21 : 1000 ≤ d2.year) (hy22 : d2.year ≤ 9999) :
    (charListLtB (getPeriodKey d1 "Quarterly").data
        (getPeriodKey d2 "Quarterly").data = true) ↔
      (d1.year < d2.year ∨ (d1.year = d2.year ∧
        d1.month0 / 3 + 1 < d2.month0 / 3 + 1)) := by
  have hb11 : 1000 ≤ d1.year.toNat := by omega
  have hb12 : d1.year.toNat ≤ 9999 := by omega
  have hb21 : 1000 ≤ d2.year.toNat := by omega
  have hb22 : d2.year.toNat ≤ 9999 := by omega
  have len1 : (natDigits d1.year.toNat).length = 4 := by
    rw [natDigits_four hb11 hb12]; rfl
  have len2 : (natDigits d2.year.toNat).length = 4 := by
    rw [natDigits_four hb21 hb22]; rfl
  have hq1 : d1.month0 / 3 + 1 < 10 := by
    have := d1.month0_lt
    omega
  have hq2 : d2.month0 / 3 + 1 < 10 := by
    have := d2.month0_lt
    omega
  rw [quarterly_key_data d1, quarterly_key_data d2, intToString_of_large hy11,
    intToString_of_large hy21,
    charListLtB_append_eq_length _ _ _ _ (len1.trans len2.symm),
    charListLtB_cons_same, charListLtB_cons_same,
    natDigits_small hq1, natDigits_small hq2]
  split_ifs with hy1 hy2
  · have := (charListLtB_year hb11 hb12 hb21 hb22).1 hy1
    simp only [true_iff]
    left
    omega
  · have := (charListLtB_year hb21 hb22 hb11 hb12).1 hy2
    constructor
    · intro hh; cases hh
    · intro hh; exfalso; omega
  · have hYeq : natDigits d1.year.toNat = natDigits d2.year.toNat :=
      charListLtB_eq_of_not (by simpa using hy1) (by simpa using hy2)
    have hyeqN := natDigits_inj hYeq
    have hyeq : d1.year = d2.year := by omega
    rw [charListLtB_single_digit hq1 hq2]
    constructor
    · intro hh
      exact Or.inr ⟨hyeq, hh⟩
    · intro hh
      rcases hh with h | ⟨_, h⟩
      · omega
      · exact h

/-! ## Injectivity of the period keys -/

theorem data_plus (s : String) : ("+" ++ s).data = '+' :: s.data := by
  rw [String.data_append]
  rfl

theorem data_minus (s : String) : ("-" ++ s).data = '-' :: s.data := by
  rw [String.data_append]
  rfl

theorem intToString_inj {i j : Int} (h : intToString i = intToString j) :
    i = j := by
  unfold intToString at h
  by_cases hi : i < 0 <;> by_cases hj : j < 0
  · rw [if_pos hi, if_pos hj] at h
    have hd := congrArg String.data h
    rw [data_minus, data_minus] at hd
    have ht : natDigits i.natAbs = natDigits j.natAbs :=
      List.tail_eq_of_cons_eq hd
    have := natDigits_inj ht
    omega
  · rw [if_pos hi, if_neg hj] at h
    exfalso
    have hd := congrArg String.data h
    rw [data_minus] at hd
    obtain ⟨c, cs, hc, h48, h57⟩ := natDigits_head_digit j.toNat
    rw [show (natToString j.toNat).data = natDigits j.toNat from rfl, hc] at hd
    have hcc := List.head_eq_of_cons_eq hd
    rw [← hcc] at h48
    exact absurd h48 (by decide)
  · rw [if_neg hi, if_pos hj] at h
    exfalso
    have hd := congrArg String.data h
    rw [data_minus] at hd
    obtain ⟨c, cs, hc, h48, h57⟩ := natDigits_head_digit i.toNat
    rw [show (natToString i.toNat).data = natDigits i.toNat from rfl, hc] at hd
    have hcc := List.head_eq_of_cons_eq hd
    rw [hcc] at h48
    exact absurd h48 (by decide)
  · rw [if_neg hi, if_neg hj] at h
    have hd := congrArg String.data h
    have ht : natDigits i.toNat = natDigits j.toNat := hd
    have := natDigits_inj ht
    omega

theorem padStart_data (n k : Nat) :
    (padStart (natToString n) k '0').data =
      List.replicate (k - (natDigits n).length) '0' ++ natDigits n := by
  unfold padStart
  rw [String.data_append]
  rfl

theorem parse_padStart (n k : Nat) :
    parseNatChars ((padStart (natToString n) k '0').data) = n := by
  rw [padStart_data, parseNatChars_replicate_zero, parseNatChars_natDigits]

theorem padStart_head_digit (n k : Nat) :
    ∃ c cs, (padStart (natToString n) k '0').data = c :: cs ∧
      48 ≤ c.toNat ∧ c.toNat ≤ 57 := by
  rw [padStart_data]
  cases hrep : k - (natDigits n).length with
  | zero =>
    rw [List.replicate_zero, List.nil_append]
    exact natDigits_head_digit n
  | succ m =>
    rw [List.replicate_succ, List.cons_append]
    exact ⟨'0', _, rfl, by decide, by decide⟩

theorem isoYearString_inj {i j : Int} (h : isoYearString i = isoYearString j) :
    i = j := by
  unfold isoYearString at h
  by_cases hi : 0 ≤ i ∧ i ≤ 9999 <;> by_cases hj : 0 ≤ j ∧ j ≤ 9999
  · rw [if_pos hi, if_pos hj] at h
    have hp := congrArg (fun s => parseNatChars s.data) h
    simp only at hp
    rw [parse_padStart, parse_padStart] at hp
    omega
  · rw [if_pos hi, if_neg hj] at h
    exfalso
    obtain ⟨c, cs, hc, h48, h57⟩ := padStart_head_digit i.toNat 4
    by_cases hj2 : 9999 < j
    · rw [if_pos hj2] at h
      have hd := congrArg String.data h
      rw [hc, data_plus] at hd
      have hcc := List.head_eq_of_cons_eq hd
      rw [hcc] at h48
      exact absurd h48 (by decide)
    · rw [if_neg hj2] at h
      have hd := congrArg String.data h
      rw [hc, data_minus] at hd
      have hcc := List.head_eq_of_cons_eq hd
      rw [hcc] at h48
      exact absurd h48 (by decide)
  · rw [if_neg hi, if_pos hj] at h
    exfalso
    obtain ⟨c, cs, hc, h48, h57⟩ := padStart_head_digit j.toNat 4
    by_cases hi2 : 9999 < i
    · rw [if_pos hi2] at h
      have hd := congrArg String.data h
      rw [hc, data_plus] at hd
      have hcc := List.head_eq_of_cons_eq hd.symm
      rw [hcc] at h48
      exact absurd h48 (by decide)
    · rw [if_neg hi2] at h
      have hd := congrArg String.data h
      rw [hc, data_minus] at hd
      have hcc := List.head_eq_of_cons_eq hd.symm
      rw [hcc] at h48
      exact absurd h48 (by decide)
  · rw [if_neg hi, if_neg hj] at h
    by_cases hi2 : 9999 < i <;> by_cases hj2 : 9999 < j
    · rw [if_pos hi2, if_pos hj2] at h
      have hd := congrArg String.data h
      rw [data_plus, data_plus] at hd
      have ht := List.tail_eq_of_cons_eq hd
      have hp := congrArg parseNatChars ht
      rw [parse_padStart, parse_padStart] at hp
      omega
    · rw [if_pos hi2, if_neg hj2] at h
      have hd := congrArg String.data h
      rw [data_plus, data_minus] at hd
      exact absurd (List.head_eq_of_cons_eq hd) (by decide)
    · rw [if_neg hi2, if_pos hj2] at h
      have hd := congrArg String.data h
      rw [data_minus, data_plus] at hd
      exact absurd (List.head_eq_of_cons_eq hd) (by decide)
    · rw [if_neg hi2, if_neg hj2] at h
      have hd := congrArg String.data h
      rw [data_minus, data_minus] at hd
      have ht := List.tail_eq_of_cons_eq hd
      have hp := congrArg parseNatChars ht
      rw [parse_padStart, parse_padStart] at hp
      omega

theorem month_day_suffix_inj (d1 d2 : JsDate)
    (h : ('-' :: ((pad2 (d1.month0 + 1)).data ++ '-' :: (pad2 d1.day).data)) =
      ('-' :: ((pad2 (d2.month0 + 1)).data ++ '-' :: (pad2 d2.day).data))) :
    d1.month0 = d2.month0 ∧ d1.day = d2.day := by
  have h2 := List.tail_eq_of_cons_eq h
  have hlen : ('-' :: (pad2 d1.day).data).length =
      ('-' :: (pad2 d2.day).data).length := by
    rw [pad2_data (pad2_day_lt d1), pad2_data (pad2_day_lt d2)]
    rfl
  obtain ⟨hm, hd⟩ := List.append_inj' h2 hlen
  constructor
  · have := pad2_data_inj (pad2_month_lt d1) (pad2_month_lt d2) hm
    omega
  · exact pad2_data_inj (pad2_day_lt d1) (pad2_day_lt d2)
      (List.tail_eq_of_cons_eq hd)

theorem month_day_suffix_len (d : JsDate) :
    ('-' :: ((pad2 (d.month0 + 1)).data ++ '-' :: (pad2 d.day).data)).length
      = 6 := by
  rw [pad2_data (pad2_month_lt d), pad2_data (pad2_day_lt d)]
  rfl

theorem daily_key_inj_iff (d1 d2 : JsDate) :
    getPeriodKey d1 "Daily" = getPeriodKey d2 "Daily" ↔
      (d1.year = d2.year ∧ d1.month0 = d2.month0 ∧ d1.day = d2.day) := by
  constructor
  · intro h
    have hd := congrArg String.data h
    rw [daily_key_data, daily_key_data] at hd
    obtain ⟨hy, hs⟩ := List.append_inj' hd
      ((month_day_suffix_len d1).trans (month_day_suffix_len d2).symm)
    have hy2 : d1.year = d2.year := intToString_inj (string_eq_of_data hy)
    obtain ⟨hm, hd2⟩ := month_day_suffix_inj d1 d2 hs
    exact ⟨hy2, hm, hd2⟩
  · rintro ⟨h1, h2, h3⟩
    rw [getPeriodKey_daily, getPeriodKey_daily, h1, h2, h3]

theorem iso_key_inj_iff (d1 d2 : JsDate) (g : String)
    (hg : ¬(g = "Daily" ∨ g = "Weekly" ∨ g = "Monthly" ∨ g = "Quarterly")) :
    getPeriodKey d1 g = getPeriodKey d2 g ↔
      (d1.year = d2.year ∧ d1.month0 = d2.month0 ∧ d1.day = d2.day) := by
  constructor
  · intro h
    have hd := congrArg String.data h
    rw [iso_key_data d1 g hg, iso_key_data d2 g hg] at hd
    obtain ⟨hy, hs⟩ := List.append_inj' hd
      ((month_day_suffix_len d1).trans (month_day_suffix_len d2).symm)
    have hy2 : d1.year = d2.year := isoYearString_inj (string_eq_of_data hy)
    obtain ⟨hm, hd2⟩ := month_day_suffix_inj d1 d2 hs
    exact ⟨hy2, hm, hd2⟩
  · rintro ⟨h1, h2, h3⟩
    rw [getPeriodKey_unknown d1 g hg, getPeriodKey_unknown d2 g hg]
    unfold isoDateString
    rw [h1, h2, h3]

/-! ## Bucket count comparison between two granularities -/

theorem keys_pair_fold (g1 g2 : String)
    (hiff : ∀ t1 t2 : StockTradeData,
      getPeriodKey t1.timeStamp g1 = getPeriodKey t2.timeStamp g1 ↔
        getPeriodKey t1.timeStamp g2 = getPeriodKey t2.timeStamp g2) :
    ∀ (ts : List StockTradeData)
      (m1 m2 : List (String × List StockTradeData)),
      (m1.map Prod.fst).length = (m2.map Prod.fst).length →
      (∀ t : StockTradeData,
        getPeriodKey t.timeStamp g1 ∈ m1.map Prod.fst ↔
          getPeriodKey t.timeStamp g2 ∈ m2.map Prod.fst) →
      ((ts.foldl (groupStep g1) m1).map Prod.fst).length =
        ((ts.foldl (groupStep g2) m2).map Prod.fst).length := by
  intro ts
  induction ts with
  | nil =>
    intro m1 m2 hlen _
    simpa using hlen
  | cons t ts ih =>
    intro m1 m2 hlen hmem
    rw [List.foldl_cons, List.foldl_cons]
    apply ih
    · unfold groupStep
      rw [keys_insertTrade, keys_insertTrade]
      by_cases h1 : getPeriodKey t.timeStamp g1 ∈ m1.map Prod.fst
      · rw [if_pos h1, if_pos ((hmem t).1 h1)]
        exact hlen
      · rw [if_neg h1, if_neg (fun hh => h1 ((hmem t).2 hh))]
        simp [hlen]
    · intro u
      unfold groupStep
      rw [keys_insertTrade, keys_insertTrade]
      by_cases h1 : getPeriodKey t.timeStamp g1 ∈ m1.map Prod.fst
      · rw [if_pos h1, if_pos ((hmem t).1 h1)]
        exact hmem u
      · rw [if_neg h1, if_neg (fun hh => h1 ((hmem t).2 hh))]
        simp only [List.mem_append, List.mem_singleton]
        constructor
        · rintro (hh | hh)
          · exact Or.inl ((hmem u).1 hh)
          · exact Or.inr ((hiff u t).1 hh)
        · rintro (hh | hh)
          · exact Or.inl ((hmem u).2 hh)
          · exact Or.inr ((hiff u t).2 hh)

theorem calc_length (gs : List (String × List StockTradeData)) :
    (calculateAggregatedData gs).length = gs.length :=
  (calc_perm gs).length_eq.trans (List.length_map gs _)

/-- Two granularities that induce the same partition of dates produce the
same number of buckets. -/
theorem aggregateTrades_length_eq (ts : List StockTradeData) (g1 g2 : String)
    (hiff : ∀ t1 t2 : StockTradeData,
      getPeriodKey t1.timeStamp g1 = getPeriodKey t2.timeStamp g1 ↔
        getPeriodKey t1.timeStamp g2 = getPeriodKey t2.timeStamp g2) :
    (aggregateTrades ts g1).length = (aggregateTrades ts g2).length := by
  by_cases hne : ts = []
  · subst hne
    rw [aggregateTrades_nil, aggregateTrades_nil]
  · rw [aggregateTrades_eq_calc ts g1 hne, aggregateTrades_eq_calc ts g2 hne,
      calc_length, calc_length]
    have h := keys_pair_fold g1 g2 hiff (List.insertionSort tradeLe ts) [] []
      (by simp) (by simp)
    calc ((List.insertionSort tradeLe ts).foldl (groupStep g1) []).length
        = (((List.insertionSort tradeLe ts).foldl (groupStep g1) []).map
            Prod.fst).length := (List.length_map _ _).symm
      _ = (((List.insertionSort tradeLe ts).foldl (groupStep g2) []).map
            Prod.fst).length := h
      _ = ((List.insertionSort tradeLe ts).foldl (groupStep g2) []).length :=
          List.length_map _ _

/-! ## Worked example evaluations -/

theorem aggDataExt (a b : AggregatedTradeData)
    (h1 : a.period = b.period) (h2 : a.totalTradeSize = b.totalTradeSize)
    (h3 : a.averagePrice = b.averagePrice) (h4 : a.tradeCount = b.tradeCount)
    (h5 : a.symbols = b.symbols) : a = b := by
  cases a; cases b
  simp only at h1 h2 h3 h4 h5
  subst h1; subst h2; subst h3; subst h4; subst h5
  rfl

theorem mkBucket_monthly_fields :
    mkBucket "2024-02" [mTrade1, mTrade2] = monthlyBucket := by
  apply aggDataExt
  · rfl
  · show (0 + mTrade1.tradeSize) + mTrade2.tradeSize = 40
    norm_num [mTrade1, mTrade2]
  · show (if 0 < (0 + mTrade1.tradeSize) + mTrade2.tradeSize then
        ((0 + mTrade1.price * mTrade1.tradeSize) +
          mTrade2.price * mTrade2.tradeSize) /
          ((0 + mTrade1.tradeSize) + mTrade2.tradeSize)
      else 0) = 175
    norm_num [mTrade1, mTrade2]
  · rfl
  · show mTrade2.symbol ::ₘ mTrade1.symbol ::ₘ 0 = monthlyBucket.symbols
    decide

theorem aggregateMonthlyExample :
    aggregateTrades [mTrade1, mTrade2] "Monthly" = [monthlyBucket] := by
  have h1 : aggregateTrades [mTrade1, mTrade2] "Monthly" =
      [mkBucket "2024-02" [mTrade1, mTrade2]] := rfl
  rw [h1, mkBucket_monthly_fields]

theorem monthlyBucket_mem :
    monthlyBucket ∈ aggregateTrades [mTrade1, mTrade2] "Monthly" := by
  rw [aggregateMonthlyExample]
  exact List.mem_singleton_self _

theorem jsCeilDiv_eq_ceil (a : Nat) : jsCeilDiv a 7 = ceilDivSpec a 7 := by
  unfold jsCeilDiv ceilDivSpec
  by_cases h : a % 7 = 0 <;> simp [h] <;> omega

theorem dateVal_lt_iff (d1 d2 : JsDate) :
    dateVal d1 < dateVal d2 ↔
      (d1.year < d2.year ∨ (d1.year = d2.year ∧
        (d1.month0 < d2.month0 ∨ (d1.month0 = d2.month0 ∧
          d1.day < d2.day)))) := by
  have hm1 := d1.month0_lt
  have hm2 := d2.month0_lt
  have hd1 := d1.one_le_day
  have hd2 := d2.one_le_day
  have hD1 := d1.day_le
  have hD2 := d2.day_le
  unfold dateVal
  constructor <;> intro h <;> omega

/-! ## The specified properties -/

/-- C7: for every granularity string `g`, `aggregateTrades [] g` returns
the empty list: no buckets are produced and no error is raised (the
function is total). -/
theorem aggregateTrades_empty_input (g : String) :
    aggregateTrades [] g = [] := rfl

/-- C9: `formatPeriodForDisplay "2024-Q1" "Quarterly"` is `"2024 Q1"`,
which contains the year 2024 and the quarter indicator `Q1`, and
`formatPeriodForDisplay "2024-03" "Monthly"` is `"Mar 2024"`. -/
theorem formatPeriodForDisplay_examples :
    formatPeriodForDisplay "2024-Q1" "Quarterly" = "2024 Q1" ∧
      formatPeriodForDisplay "2024-03" "Monthly" = "Mar 2024" := by
  decide

/-- C2: for every non empty trade list and every granularity, the sum of
`totalTradeSize` over the buckets returned by `aggregateTrades` equals the
sum of `tradeSize` over the input trades. -/
theorem aggregateTrades_conserves_totalTradeSize
    (trades : List StockTradeData) (g : String) (h : trades ≠ []) :
    ((aggregateTrades trades g).map fun b => b.totalTradeSize).sum =
      (trades.map fun t => t.tradeSize).sum :=
  aggregateTrades_sum_size trades g h

theorem aggregateTrades_conserves_totalTradeSize_witness :
    ([mTrade1, mTrade2] ≠ ([] : List StockTradeData)) ∧
      ((aggregateTrades [mTrade1, mTrade2] "Monthly").map
          fun b => b.totalTradeSize).sum =
        ([mTrade1, mTrade2].map fun t => t.tradeSize).sum :=
  ⟨by simp, aggregateTrades_conserves_totalTradeSize [mTrade1, mTrade2]
    "Monthly" (by simp)⟩

/-- C5: for every non empty trade list and every granularity, the sum of
`tradeCount` over the buckets returned by `aggregateTrades` equals the
length of the input list. -/
theorem aggregateTrades_conserves_tradeCount
    (trades : List StockTradeData) (g : String) (h : trades ≠ []) :
    ((aggregateTrades trades g).map fun b => b.tradeCount).sum =
      trades.length :=
  aggregateTrades_sum_count trades g h

theorem aggregateTrades_conserves_tradeCount_witness :
    ([mTrade1, mTrade2] ≠ ([] : List StockTradeData)) ∧
      ((aggregateTrades [mTrade1, mTrade2] "Monthly").map
          fun b => b.tradeCount).sum = [mTrade1, mTrade2].length :=
  ⟨by simp, aggregateTrades_conserves_tradeCount [mTrade1, mTrade2]
    "Monthly" (by simp)⟩

/-- C8: for every trade list, every permutation of it and every
granularity, aggregating the permuted list gives a result equal to
aggregating the original list: grouping and per bucket statistics do not
depend on input order (bucket equality includes the period key string, the
statistics, and the symbol count map). -/
theorem aggregateTrades_order_independent (ts ts' : List StockTradeData)
    (g : String) (hp : ts.Perm ts') :
    aggregateTrades ts g = aggregateTrades ts' g :=
  aggregateTrades_perm_invariant ts ts' g hp

theorem aggregateTrades_order_independent_witness :
    ([mTrade1, mTrade2].Perm [mTrade2, mTrade1]) ∧
      aggregateTrades [mTrade1, mTrade2] "Monthly" =
        aggregateTrades [mTrade2, mTrade1] "Monthly" :=
  ⟨List.Perm.swap mTrade2 mTrade1 [],
    aggregateTrades_order_independent [mTrade1, mTrade2]
      [mTrade2, mTrade1] "Monthly" (List.Perm.swap mTrade2 mTrade1 [])⟩

/-- C3: the `averagePrice` of every bucket is the size weighted average
price of the trades of its period when the total size is positive, 0
when the total size is 0 (never division by zero; in this exact
rational model no NaN or infinity exists), a bucket holding a single
trade of positive size has the price of that trade as `averagePrice`, and
the 2024-02 monthly worked example yields average price 175 on total
size 40. -/
theorem aggregateTrades_averagePrice_weighted :
    (∀ (trades : List StockTradeData) (g : String)
      (b : AggregatedTradeData), b ∈ aggregateTrades trades g →
        b.totalTradeSize =
          ((trades.filter fun t =>
            getPeriodKey t.timeStamp g = b.period).map
              fun t => t.tradeSize).sum ∧
        (0 < b.totalTradeSize →
          b.averagePrice =
            ((trades.filter fun t =>
              getPeriodKey t.timeStamp g = b.period).map
                fun t => t.price * t.tradeSize).sum / b.totalTradeSize) ∧
        (b.totalTradeSize = 0 → b.averagePrice = 0) ∧
        (∀ t : StockTradeData,
          (trades.filter fun t2 =>
            getPeriodKey t2.timeStamp g = b.period) = [t] →
          0 < t.tradeSize → b.averagePrice = t.price)) ∧
      aggregateTrades [mTrade1, mTrade2] "Monthly" = [monthlyBucket] := by
  constructor
  · intro trades g b hb
    have hchar := bucket_characterisation trades g b hb
    have htot : b.totalTradeSize =
        ((trades.filter fun t =>
          getPeriodKey t.timeStamp g = b.period).map
            fun t => t.tradeSize).sum := by
      conv_lhs => rw [hchar]
      exact mkBucket_totalTradeSize _ _
    have havg : b.averagePrice =
        if 0 < ((trades.filter fun t =>
            getPeriodKey t.timeStamp g = b.period).map
              fun t => t.tradeSize).sum then
          ((trades.filter fun t =>
            getPeriodKey t.timeStamp g = b.period).map
              fun t => t.price * t.tradeSize).sum /
            ((trades.filter fun t =>
              getPeriodKey t.timeStamp g = b.period).map
                fun t => t.tradeSize).sum
        else 0 := by
      conv_lhs => rw [hchar]
      exact mkBucket_averagePrice _ _
    refine ⟨htot, ?_, ?_, ?_⟩
    · intro hpos
      rw [htot] at hpos
      rw [havg, if_pos hpos, htot]
    · intro hzero
      rw [htot] at hzero
      rw [havg, hzero]
      simp
    · intro t ht hts
      rw [havg, ht]
      simp only [List.map_cons, List.map_nil, List.sum_cons, List.sum_nil,
        add_zero]
      rw [if_pos hts]
      exact mul_div_cancel_right₀ _ (ne_of_gt hts)
  · exact aggregateMonthlyExample

theorem aggregateTrades_averagePrice_weighted_witness :
    (monthlyBucket ∈ aggregateTrades [mTrade1, mTrade2] "Monthly") ∧
      (monthlyBucket.totalTradeSize =
        (([mTrade1, mTrade2].filter fun t =>
          getPeriodKey t.timeStamp "Monthly" = monthlyBucket.period).map
            fun t => t.tradeSize).sum ∧
      (0 < monthlyBucket.totalTradeSize →
        monthlyBucket.averagePrice =
          (([mTrade1, mTrade2].filter fun t =>
            getPeriodKey t.timeStamp "Monthly" = monthlyBucket.period).map
              fun t => t.price * t.tradeSize).sum /
            monthlyBucket.totalTradeSize) ∧
      (monthlyBucket.totalTradeSize = 0 → monthlyBucket.averagePrice = 0) ∧
      (∀ t : StockTradeData,
        ([mTrade1, mTrade2].filter fun t2 =>
          getPeriodKey t2.timeStamp "Monthly" = monthlyBucket.period) = [t] →
        0 < t.tradeSize → monthlyBucket.averagePrice = t.price)) :=
  ⟨monthlyBucket_mem,
    aggregateTrades_averagePrice_weighted.1 [mTrade1, mTrade2] "Monthly"
      monthlyBucket monthlyBucket_mem⟩

/-- C10: in every bucket returned by `aggregateTrades` the counts in the
`symbols` map add up to the `tradeCount` of the bucket, every symbol in the
map has count at least 1, and a symbol is a key of the map only if some
trade of the bucket carries it. -/
theorem aggregateTrades_symbols_counts
    (trades : List StockTradeData) (g : String) (b : AggregatedTradeData)
    (hb : b ∈ aggregateTrades trades g) :
    (∑ s ∈ b.symbols.toFinset, b.symbols.count s) = b.tradeCount ∧
      (∀ s ∈ b.symbols.toFinset, 1 ≤ b.symbols.count s) ∧
      (∀ s ∈ b.symbols.toFinset, ∃ t ∈ trades,
        getPeriodKey t.timeStamp g = b.period ∧ t.symbol = s) := by
  have hchar := bucket_characterisation trades g b hb
  have hsym : b.symbols =
      ↑((trades.filter fun t =>
        getPeriodKey t.timeStamp g = b.period).map fun t => t.symbol) := by
    conv_lhs => rw [hchar]
    exact mkBucket_symbols _ _
  have hcnt : b.tradeCount =
      (trades.filter fun t =>
        getPeriodKey t.timeStamp g = b.period).length := by
    conv_lhs => rw [hchar]
    exact mkBucket_tradeCount _ _
  refine ⟨?_, ?_, ?_⟩
  · rw [Multiset.toFinset_sum_count_eq, hsym, hcnt]
    simp
  · intro s hs
    have := Multiset.count_pos.2 (Multiset.mem_toFinset.1 hs)
    omega
  · intro s hs
    have hmem : s ∈ b.symbols := Multiset.mem_toFinset.1 hs
    rw [hsym, Multiset.mem_coe] at hmem
    obtain ⟨t, ht, hts⟩ := List.mem_map.1 hmem
    rw [List.mem_filter] at ht
    exact ⟨t, ht.1, by simpa using ht.2, hts⟩

theorem aggregateTrades_symbols_counts_witness :
    (monthlyBucket ∈ aggregateTrades [mTrade1, mTrade2] "Monthly") ∧
      ((∑ s ∈ monthlyBucket.symbols.toFinset,
          monthlyBucket.symbols.count s) = monthlyBucket.tradeCount ∧
        (∀ s ∈ monthlyBucket.symbols.toFinset,
          1 ≤ monthlyBucket.symbols.count s) ∧
        (∀ s ∈ monthlyBucket.symbols.toFinset, ∃ t ∈ [mTrade1, mTrade2],
          getPeriodKey t.timeStamp "Monthly" = monthlyBucket.period ∧
            t.symbol = s)) :=
  ⟨monthlyBucket_mem,
    aggregateTrades_symbols_counts [mTrade1, mTrade2] "Monthly"
      monthlyBucket monthlyBucket_mem⟩

/-- C4 (counterexample): for a date whose `getFullYear()` lies between 0
and 99 the Weekly key does not use the weekday of the first day of the
month of the date.  On 0050-01-07 the first of the month (0050-01-01) is
a Saturday (weekday 6), so the documented formula gives
`ceil((7 + 6) / 7) = 2` and key `50-W2-1`; the code, however, builds
`new Date(50, 0, 1)`, which ECMAScript remaps to 1950-01-01 (a Sunday,
weekday 0), and emits `ceil((7 + 0) / 7) = 1`, key `50-W1-1`. -/
theorem weekly_key_year_remap :
    getPeriodKey dYear50 "Weekly" = "50-W1-1" ∧
      civilFirstWeekday dYear50.year dYear50.month0 = 6 ∧
      firstMonthWeekday dYear50.year dYear50.month0 = 0 ∧
      intToString dYear50.year ++ "-W" ++
          natToString (ceilDivSpec (dYear50.day +
            civilFirstWeekday dYear50.year dYear50.month0) 7) ++ "-" ++
          natToString (dYear50.month0 + 1) = "50-W2-1" ∧
      getPeriodKey dYear50 "Weekly" ≠
        intToString dYear50.year ++ "-W" ++
          natToString (ceilDivSpec (dYear50.day +
            civilFirstWeekday dYear50.year dYear50.month0) 7) ++ "-" ++
          natToString (dYear50.month0 + 1) := by
  decide

/-- C4 (amended): the period key of a date is exactly the documented
format for each granularity (daily `YYYY-MM-DD` zero padded, weekly
`YYYY-W{ceil((day + w) / 7)}-{month}` where `w` is the weekday produced
by `new Date(year, month, 1).getDay()`, monthly `YYYY-MM` zero padded,
quarterly `YYYY-Q{month0 / 3 + 1}`).  The weekday `w` equals the true
weekday of the first day of the month whenever `getFullYear()` is not
between 0 and 99; inside that range the ECMAScript `Date` constructor
remaps the year to 1900 plus the year.  The quarterly worked example on
2024-01-15 and 2024-03-20 produces the single bucket `2024-Q1` with
trade count 2. -/
theorem getPeriodKey_formats :
    (∀ d : JsDate, getPeriodKey d "Daily" =
      intToString d.year ++ "-" ++ pad2 (d.month0 + 1) ++ "-" ++
        pad2 d.day) ∧
    (∀ d : JsDate, getPeriodKey d "Weekly" =
      intToString d.year ++ "-W" ++
        natToString (ceilDivSpec (d.day + firstMonthWeekday d.year d.month0) 7)
        ++ "-" ++ natToString (d.month0 + 1)) ∧
    (∀ (y : Int) (m0 : Nat), ¬(0 ≤ y ∧ y ≤ 99) →
      firstMonthWeekday y m0 = civilFirstWeekday y m0) ∧
    (∀ d : JsDate, getPeriodKey d "Monthly" =
      intToString d.year ++ "-" ++ pad2 (d.month0 + 1)) ∧
    (∀ d : JsDate, getPeriodKey d "Quarterly" =
      intToString d.year ++ "-Q" ++ natToString (d.month0 / 3 + 1)) ∧
    ((aggregateTrades [qTrade1, qTrade2] "Quarterly").map
      fun b => b.period) = ["2024-Q1"] ∧
    ((aggregateTrades [qTrade1, qTrade2] "Quarterly").map
      fun b => b.tradeCount) = [2] := by
  refine ⟨fun d => rfl, fun d => ?_, fun y m0 h => ?_, fun d => rfl,
    fun d => rfl, ?_, ?_⟩
  · rw [← jsCeilDiv_eq_ceil]
    rfl
  · unfold firstMonthWeekday
    rw [if_neg h]
  · decide
  · decide

theorem getPeriodKey_formats_witness :
    (¬((0 : Int) ≤ 2024 ∧ (2024 : Int) ≤ 99)) ∧
      firstMonthWeekday 2024 0 = civilFirstWeekday 2024 0 :=
  ⟨by decide, getPeriodKey_formats.2.2.1 2024 0 (by decide)⟩

/-- C6: a granularity string outside the four enumerated values does not
fail: every date still gets a key (the default branches), the induced
partition of dates into buckets is exactly the daily one (two dates share
a key under the unknown granularity exactly when they share a key under
`Daily`), and aggregation produces the same number of buckets as
`Daily`. -/
theorem unknown_granularity_daily_equivalent (g : String)
    (hg : ¬(g = "Daily" ∨ g = "Weekly" ∨ g = "Monthly" ∨ g = "Quarterly")) :
    (∀ d1 d2 : JsDate, getPeriodKey d1 g = getPeriodKey d2 g ↔
        getPeriodKey d1 "Daily" = getPeriodKey d2 "Daily") ∧
      (∀ trades : List StockTradeData,
        (aggregateTrades trades g).length =
          (aggregateTrades trades "Daily").length) := by
  constructor
  · intro d1 d2
    rw [iso_key_inj_iff d1 d2 g hg, daily_key_inj_iff]
  · intro trades
    apply aggregateTrades_length_eq
    intro t1 t2
    rw [iso_key_inj_iff _ _ g hg, daily_key_inj_iff]

theorem unknown_granularity_daily_equivalent_witness :
    (¬("Biweekly" = "Daily" ∨ "Biweekly" = "Weekly" ∨
        "Biweekly" = "Monthly" ∨ "Biweekly" = "Quarterly")) ∧
      (getPeriodKey dJan10 "Biweekly" = getPeriodKey dFeb01 "Biweekly" ↔
        getPeriodKey dJan10 "Daily" = getPeriodKey dFeb01 "Daily") :=
  ⟨by decide,
    (unknown_granularity_daily_equivalent "Biweekly" (by decide)).1
      dJan10 dFeb01⟩

/-- C1 (counterexample): for the Weekly granularity, lexicographic order
of period keys does not match chronological order.  The trade of
2024-01-10 (week 2 of January, key `2024-W2-1`) is chronologically
earlier than the trade of 2024-02-01 (week 1 of February, key
`2024-W1-2`), yet its key is lexicographically larger, and the returned
list puts the bucket of the later trade first. -/
theorem weekly_key_order_not_chronological :
    ((aggregateTrades [wTrade1, wTrade2] "Weekly").map fun b => b.period) =
        ["2024-W1-2", "2024-W2-1"] ∧
      getPeriodKey wTrade1.timeStamp "Weekly" = "2024-W2-1" ∧
      getPeriodKey wTrade2.timeStamp "Weekly" = "2024-W1-2" ∧
      dateVal wTrade1.timeStamp < dateVal wTrade2.timeStamp ∧
      charListLtB (getPeriodKey wTrade2.timeStamp "Weekly").data
        (getPeriodKey wTrade1.timeStamp "Weekly").data = true := by
  decide

/-- C1 (amended): for every trade list and every granularity the returned
list is sorted ascending by `period` string under lexicographic
comparison; for the Daily, Monthly and Quarterly key formats (with years
between 1000 and 9999) lexicographic key order coincides with
chronological order of the underlying dates, but not for the Weekly
format. -/
theorem aggregateTrades_output_ordering :
    (∀ (ts : List StockTradeData) (g : String),
        List.Sorted periodLe (aggregateTrades ts g)) ∧
      (∀ d1 d2 : JsDate, 1000 ≤ d1.year → d1.year ≤ 9999 →
        1000 ≤ d2.year → d2.year ≤ 9999 →
        ((charListLtB (getPeriodKey d1 "Daily").data
            (getPeriodKey d2 "Daily").data = true) ↔
          dateVal d1 < dateVal d2) ∧
        ((charListLtB (getPeriodKey d1 "Monthly").data
            (getPeriodKey d2 "Monthly").data = true) ↔
          (d1.year < d2.year ∨
            (d1.year = d2.year ∧ d1.month0 < d2.month0))) ∧
        ((charListLtB (getPeriodKey d1 "Quarterly").data
            (getPeriodKey d2 "Quarterly").data = true) ↔
          (d1.year < d2.year ∨ (d1.year = d2.year ∧
            d1.month0 / 3 + 1 < d2.month0 / 3 + 1)))) := by
  constructor
  · intro ts g
    by_cases h : ts = []
    · subst h
      rw [aggregateTrades_nil]
      exact List.sorted_nil
    · rw [aggregateTrades_eq_calc ts g h]
      exact sorted_calc _
  · intro d1 d2 h1 h2 h3 h4
    refine ⟨?_, monthly_key_lt_iff d1 d2 h1 h2 h3 h4,
      quarterly_key_lt_iff d1 d2 h1 h2 h3 h4⟩
    rw [daily_key_lt_iff d1 d2 h1 h2 h3 h4, dateVal_lt_iff]

theorem aggregateTrades_output_ordering_witness :
    (1000 ≤ dJan10.year ∧ dJan10.year ≤ 9999 ∧
        1000 ≤ dFeb01.year ∧ dFeb01.year ≤ 9999) ∧
      ((charListLtB (getPeriodKey dJan10 "Daily").data
          (getPeriodKey dFeb01 "Daily").data = true) ↔
        dateVal dJan10 < dateVal dFeb01) :=
  ⟨by decide,
    (aggregateTrades_output_ordering.2 dJan10 dFeb01 (by decide)
      (by decide) (by decide) (by decide)).1⟩
